import Mathlib

/-!
Shallow embedding of the early-boot heap allocator of nt_rustos
(src/init/alloc/allocator.rs, metadata.rs, handover.rs), for the 64-bit
target the kernel is built for (usize = 64 bits, so
size_of::<BlockHeader>() = 48 and size_of::<FreeBlock>() = 16, both as
computed from the repr(C) layouts in the source).

Modelling conventions:
* The heap is the list of blocks currently present, in address order;
  each block carries its header address and its header fields.  A memory
  read at an address that is not a live header address is modelled as
  reading bytes that do not form a valid header (fresh, never-written
  memory), i.e. the lookup returns none and the corresponding validation
  fails.
* usize / u64 / u32 arithmetic is on Nat.  Subtractions that the code
  performs on unsigned integers are modelled with explicit two's
  complement wrap-around (mod 2^64), matching the release-profile
  semantics of the kernel; free_size additions are wrapped as well,
  because free_size provably wraps below zero (see the C4 theorem) and
  later additions then matter mod 2^64.  Additions to fields that stay
  far below 2^64 in every reachable state are modelled exactly.
* The loops of integrity_check and of the handover walk are modelled
  with an explicit fuel argument that is always instantiated above the
  maximal possible number of iterations (each iteration advances by at
  least one header size), so the fuel never runs out on the states the
  theorems talk about.
-/

namespace NtRustos

/-- Modulus of usize / u64 arithmetic on the 64-bit target. -/
def USIZE : Nat := 2 ^ 64

/-- Modulus of u32 arithmetic. -/
def U32 : Nat := 2 ^ 32

/-- Wrapping unsigned 64-bit addition. -/
def wadd (a b : Nat) : Nat := (a + b) % USIZE

/-- Wrapping unsigned 64-bit subtraction (two's complement). -/
def wsub (a b : Nat) : Nat := (a + (USIZE - b % USIZE)) % USIZE

/-- size_of::<BlockHeader>() on the 64-bit target: the repr(C) layout of
{size: usize, status: u8-like enum, magic: u32, alloc_id: u64,
purpose: u8 enum, timestamp: u64, checksum: u32, padding: [u8;4]}
occupies 48 bytes (a multiple of 16, as the compile-time assertion in
metadata.rs demands). -/
def HEADER_SIZE : Nat := 48

/-- size_of::<FreeBlock>(): two pointers. -/
def FREE_NODE_SIZE : Nat := 16

/-- Block-header magic constant BLOCK_MAGIC. -/
def BLOCK_MAGIC : Nat := 0xB10C4EA0

/-- BlockStatus from metadata.rs. -/
inductive BlockStatus where
  | Free
  | Allocated
deriving DecidableEq, Repr

/-- AllocPurpose from handover.rs (20 variants). -/
inductive AllocPurpose where
  | Unknown
  | InterruptTable
  | ProcessControlBlock
  | PageTable
  | KernelStack
  | KernelHeap
  | DriverBuffer
  | FileSystemMeta
  | NetworkBuffer
  | TempBuffer
  | BootstrapData
  | DeviceTree
  | SymbolTable
  | ModuleCode
  | CacheBuffer
  | SharedMemory
  | UserData
  | SystemCall
  | Debugging
  | Testing
deriving DecidableEq, Repr

/-- AllocError from allocator.rs. -/
inductive AllocError where
  | NotInitialized
  | AlreadyInitialized
  | OutOfMemory
  | InvalidParameter
  | InvalidAlignment
  | InvalidPointer
  | DoubleFree
  | CorruptedHeader
  | AllocatorFrozen
  | NullPointer
  | InternalError
deriving DecidableEq, Repr

/-- BlockHeader from metadata.rs (the padding bytes, which are never read,
are omitted). -/
structure BlockHeader where
  size : Nat
  status : BlockStatus
  magic : Nat
  alloc_id : Nat
  purpose : AllocPurpose
  timestamp : Nat
  checksum : Nat
deriving DecidableEq, Repr

/-- The contribution of the status field to the header checksum. -/
def status_checksum_code : BlockStatus → Nat
  | .Free => 0x12345678
  | .Allocated => 0x87654321

/-- BlockHeader::calculate_checksum: a chain of u32 wrapping_adds over
size (as u32), status code, magic, the two u32 halves of alloc_id, and
the two u32 halves of timestamp; equal to the plain sum taken mod 2^32.
The purpose field is not part of the sum. -/
def BlockHeader.calculate_checksum (h : BlockHeader) : Nat :=
  (h.size % U32 + status_checksum_code h.status + h.magic
    + h.alloc_id % U32 + h.alloc_id / U32 % U32
    + h.timestamp % U32 + h.timestamp / U32 % U32) % U32

/-- BlockHeader::validate: magic check, nonzero size, checksum recompute
and compare. -/
def BlockHeader.validate (h : BlockHeader) : Bool :=
  if h.magic ≠ BLOCK_MAGIC then false
  else if h.size = 0 then false
  else if h.checksum ≠ h.calculate_checksum then false
  else true

/-- BlockHeader::update_checksum. -/
def BlockHeader.update_checksum (h : BlockHeader) : BlockHeader :=
  { h with checksum := h.calculate_checksum }

/-- BlockHeader::new (the timestamp comes from the global tick counter,
threaded through the allocator state as `clock`). -/
def BlockHeader.new (size : Nat) (status : BlockStatus) (ts : Nat) : BlockHeader :=
  BlockHeader.update_checksum
    { size := size, status := status, magic := BLOCK_MAGIC, alloc_id := 0,
      purpose := .Unknown, timestamp := ts, checksum := 0 }

/-- BlockHeader::total_size. -/
def BlockHeader.total_size (h : BlockHeader) : Nat := h.size + HEADER_SIZE

/-- AllocStats from metadata.rs. -/
structure AllocStats where
  total_size : Nat
  used_size : Nat
  free_size : Nat
  alloc_count : Nat
  free_count : Nat
  total_allocs : Nat
  total_frees : Nat
  failed_allocs : Nat
  double_free_attempts : Nat
  corrupted_blocks : Nat
  max_alloc_size : Nat
  min_alloc_size : Nat
  avg_alloc_size : Nat
  merge_count : Nat
  split_count : Nat
  coalesce_count : Nat
  peak_used_size : Nat
  max_free_block_size : Nat
  fragmentation_percent : Nat
deriving DecidableEq, Repr

/-- AllocStats::new (min_alloc_size starts at usize::MAX). -/
def AllocStats.new (total_size : Nat) : AllocStats :=
  { total_size := total_size, used_size := 0, free_size := total_size,
    alloc_count := 0, free_count := 0, total_allocs := 0, total_frees := 0,
    failed_allocs := 0, double_free_attempts := 0, corrupted_blocks := 0,
    max_alloc_size := 0, min_alloc_size := USIZE - 1, avg_alloc_size := 0,
    merge_count := 0, split_count := 0, coalesce_count := 0,
    peak_used_size := 0, max_free_block_size := total_size,
    fragmentation_percent := 0 }

/-- AllocStats::record_alloc.  The subtraction from free_size is the
unsigned wrapping subtraction the release build performs; it is the
underflow site of claim C4. -/
def AllocStats.record_alloc (st : AllocStats) (size : Nat) : AllocStats :=
  let used_size := st.used_size + size
  let free_size := wsub st.free_size size
  let alloc_count := st.alloc_count + 1
  let total_allocs := st.total_allocs + 1
  let max_alloc_size := max st.max_alloc_size size
  let min_alloc_size := if st.min_alloc_size = USIZE - 1 then size else min st.min_alloc_size size
  let avg_alloc_size := if 0 < total_allocs then used_size / alloc_count else st.avg_alloc_size
  let peak_used_size := max st.peak_used_size used_size
  { st with used_size, free_size, alloc_count, total_allocs, max_alloc_size,
            min_alloc_size, avg_alloc_size, peak_used_size }

/-- AllocStats::record_dealloc (alloc_count uses saturating_sub, which is
exactly Nat subtraction). -/
def AllocStats.record_dealloc (st : AllocStats) (size : Nat) : AllocStats :=
  let used_size := wsub st.used_size size
  let free_size := wadd st.free_size size
  let alloc_count := st.alloc_count - 1
  let total_frees := st.total_frees + 1
  let avg_alloc_size := if 0 < alloc_count then used_size / alloc_count else 0
  { st with used_size, free_size, alloc_count, total_frees, avg_alloc_size }

/-- AllocStats::record_alloc_failure. -/
def AllocStats.record_alloc_failure (st : AllocStats) : AllocStats :=
  { st with failed_allocs := st.failed_allocs + 1 }

/-- AllocStats::record_double_free. -/
def AllocStats.record_double_free (st : AllocStats) : AllocStats :=
  { st with double_free_attempts := st.double_free_attempts + 1 }

/-- AllocStats::record_corruption. -/
def AllocStats.record_corruption (st : AllocStats) : AllocStats :=
  { st with corrupted_blocks := st.corrupted_blocks + 1 }

/-- Modelled from the spec: AllocStats::record_split is called from
alloc_aligned but its definition is not among the source files (only the
call sites are); per spec §4.2 the statistics transitions are small pure
updates and split_count counts block splits, so it is modelled as
incrementing split_count. -/
def AllocStats.record_split (st : AllocStats) (_new_free_block_size : Nat) : AllocStats :=
  { st with split_count := st.split_count + 1 }

/-- Modelled from the spec: AllocStats::record_merge is called from
coalesce but its definition is not among the source files; per spec §4.2
it is modelled as incrementing merge_count. -/
def AllocStats.record_merge (st : AllocStats) : AllocStats :=
  { st with merge_count := st.merge_count + 1 }

/-- A block of the heap: its header address and its header. -/
structure Block where
  addr : Nat
  hdr : BlockHeader
deriving DecidableEq, Repr

/-- Read the header at address `a`, if `a` is the address of a live
header; memory elsewhere never holds a valid header (see the module
comment). -/
def lookupBlock (blocks : List Block) (a : Nat) : Option BlockHeader :=
  (blocks.find? (fun b => b.addr = a)).map (·.hdr)

/-- Overwrite the header stored at address `a`. -/
def set_hdr_at : List Block → Nat → BlockHeader → List Block
  | [], _, _ => []
  | b :: bs, a, h => if b.addr = a then ⟨b.addr, h⟩ :: bs else b :: set_hdr_at bs a h

/-- Remove the block whose header lives at address `a`. -/
def remove_at_addr : List Block → Nat → List Block
  | [], _ => []
  | b :: bs, a => if b.addr = a then bs else b :: remove_at_addr bs a

/-- Replace the block at `a` by the shrunken allocated block and the new
free remainder block at `na` (the in-place split of alloc_aligned). -/
def split_at_addr : List Block → Nat → BlockHeader → Nat → BlockHeader → List Block
  | [], _, _, _, _ => []
  | b :: bs, a, h1, na, h2 =>
    if b.addr = a then ⟨b.addr, h1⟩ :: ⟨na, h2⟩ :: bs
    else b :: split_at_addr bs a h1 na h2

/-- usize::is_power_of_two, via repeated halving (64 bits of fuel cover
every usize value). -/
def is_pow2_fuel : Nat → Nat → Bool
  | 0, _ => false
  | _ + 1, 0 => false
  | _ + 1, 1 => true
  | f + 1, n + 2 => (n + 2) % 2 = 0 && is_pow2_fuel f ((n + 2) / 2)

/-- usize::is_power_of_two. -/
def is_power_of_two (n : Nat) : Bool := is_pow2_fuel 64 n

/-- EarlyAllocator::calculate_aligned_addr.  The code computes
`(data_addr + align - 1) & !(align - 1)`; for the power-of-two aligns
admitted by alloc_aligned the mask clears the bits below align, i.e.
rounds down to the next multiple of align, which is what is written
here. -/
def calculate_aligned_addr (block_addr align : Nat) : Nat :=
  let data_addr := block_addr + HEADER_SIZE
  (data_addr + align - 1) - (data_addr + align - 1) % align

/-- EarlyAllocator::min_block_size. -/
def min_block_size : Nat := HEADER_SIZE + FREE_NODE_SIZE

/-- EarlyAllocator::min_heap_size. -/
def min_heap_size : Nat := min_block_size * 2

/-- EarlyAllocator::find_free_block: first-fit walk of the free list; a
candidate is accepted when its payload size covers the alignment padding
plus the (normalized) requested size. -/
def find_free_block (blocks : List Block) (size align : Nat) : List Nat → Option (Block × Nat)
  | [] => none
  | a :: rest =>
    match lookupBlock blocks a with
    | none => find_free_block blocks size align rest
    | some h =>
      let user_addr := calculate_aligned_addr a align
      let required_space := user_addr - a + size
      if required_space ≤ h.size then some (⟨a, h⟩, user_addr)
      else find_free_block blocks size align rest

/-- The walk of EarlyAllocator::insert_into_free_list after the head has
been passed: advance while the next node's address is below the new one,
then link the new node in. -/
def insert_walk (a : Nat) : Nat → List Nat → List Nat
  | c, [] => [c, a]
  | c, n :: rest => if n < a then c :: insert_walk a n rest else c :: a :: n :: rest

/-- EarlyAllocator::insert_into_free_list (free-list nodes are identified
by their block header address). -/
def insert_into_free_list (l : List Nat) (a : Nat) : List Nat :=
  match l with
  | [] => [a]
  | x :: xs => if a < x then a :: x :: xs else insert_walk a x xs

/-- The node linked immediately before `a` in the free list (the `prev`
pointer of the intrusive doubly linked node). -/
def elem_before : List Nat → Nat → Option Nat
  | x :: y :: rest, a => if y = a then some x else elem_before (y :: rest) a
  | _, _ => none

/-- EarlyAllocator from allocator.rs.  `clock` threads the global
timestamp counter through the state. -/
structure EarlyAllocator where
  heap_start : Nat
  heap_end : Nat
  blocks : List Block
  free_list : List Nat
  stats : AllocStats
  frozen : Bool
  next_alloc_id : Nat
  clock : Nat
deriving DecidableEq, Repr

/-- EarlyAllocator::new. -/
def EarlyAllocator.new (heap_start heap_size clock : Nat) : Except AllocError EarlyAllocator :=
  if heap_start = 0 || heap_size < min_heap_size then .error .InvalidParameter
  else
    let heap_end := wadd heap_start heap_size
    let initial_header := BlockHeader.new (heap_size - HEADER_SIZE) .Free clock
    let stats0 := AllocStats.new heap_size
    let stats := { stats0 with free_size := heap_size, free_count := 1,
                               max_free_block_size := heap_size }
    .ok { heap_start := heap_start, heap_end := heap_end,
          blocks := [⟨heap_start, initial_header⟩], free_list := [heap_start],
          stats := stats, frozen := false, next_alloc_id := 1, clock := clock + 1 }

/-- EarlyAllocator::alloc_aligned.  Returns the new state together with
the user-data address on success (NonNull<u8> is the address). -/
def EarlyAllocator.alloc_aligned (s : EarlyAllocator) (size align : Nat) :
    EarlyAllocator × Option Nat :=
  if s.frozen then ({ s with stats := s.stats.record_alloc_failure }, none)
  else if size = 0 || !is_power_of_two align then
    ({ s with stats := s.stats.record_alloc_failure }, none)
  else
    let alloc_size := max size FREE_NODE_SIZE
    match find_free_block s.blocks alloc_size align s.free_list with
    | none => ({ s with stats := s.stats.record_alloc_failure }, none)
    | some (blk, user_addr) =>
      let block_addr := blk.addr
      let block_size := blk.hdr.size
      let free_list1 := s.free_list.erase block_addr
      let stats1 := { s.stats with
        free_size := wsub s.stats.free_size (block_size + HEADER_SIZE),
        free_count := wsub s.stats.free_count 1 }
      let required_size := user_addr - block_addr + alloc_size
      if required_size + min_block_size ≤ block_size then
        let hdr1 := BlockHeader.update_checksum
          { blk.hdr with size := required_size - HEADER_SIZE, status := .Allocated,
                         alloc_id := s.next_alloc_id, timestamp := s.clock }
        let new_addr := block_addr + required_size
        let new_size := block_size - required_size
        let new_hdr := BlockHeader.new new_size .Free (s.clock + 1)
        let blocks1 := split_at_addr s.blocks block_addr hdr1 new_addr new_hdr
        let free_list2 := insert_into_free_list free_list1 new_addr
        let stats2 := stats1.record_split new_size
        let stats3 := { stats2 with
          free_size := wadd stats2.free_size (new_size + HEADER_SIZE),
          free_count := stats2.free_count + 1 }
        let stats4 := stats3.record_alloc hdr1.size
        ({ s with blocks := blocks1, free_list := free_list2, stats := stats4,
                  next_alloc_id := s.next_alloc_id + 1, clock := s.clock + 2 },
         some user_addr)
      else
        let hdr1 := BlockHeader.update_checksum
          { blk.hdr with status := .Allocated, alloc_id := s.next_alloc_id,
                         timestamp := s.clock }
        let blocks1 := set_hdr_at s.blocks block_addr hdr1
        let stats4 := stats1.record_alloc hdr1.size
        ({ s with blocks := blocks1, free_list := free_list1, stats := stats4,
                  next_alloc_id := s.next_alloc_id + 1, clock := s.clock + 1 },
         some user_addr)

/-- EarlyAllocator::alloc is alloc_aligned with align_of::<usize>() = 8. -/
def EarlyAllocator.alloc (s : EarlyAllocator) (size : Nat) : EarlyAllocator × Option Nat :=
  s.alloc_aligned size 8

/-- Grow the block at `a` by absorbing the block that physically follows
it, removing the absorbed block (the merge step of coalesce). -/
def merge_with_next (blocks : List Block) (a : Nat) : List Block :=
  match lookupBlock blocks a with
  | none => blocks
  | some h =>
    let next_addr := a + h.total_size
    match lookupBlock blocks next_addr with
    | none => blocks
    | some nh =>
      set_hdr_at (remove_at_addr blocks next_addr) a
        (BlockHeader.update_checksum { h with size := h.size + nh.total_size })

/-- The first half of EarlyAllocator::coalesce: try to absorb the
physically next block (if it is Free). -/
def coalesce_next (heap_end : Nat) (blocks : List Block) (free_list : List Nat)
    (stats : AllocStats) (a : Nat) : List Block × List Nat × AllocStats :=
  match lookupBlock blocks a with
  | none => (blocks, free_list, stats)
  | some h =>
    let next_addr := a + h.total_size
    if next_addr < heap_end then
      match lookupBlock blocks next_addr with
      | some nh =>
        if nh.status = .Free then
          (merge_with_next blocks a, free_list.erase next_addr,
           { stats.record_merge with free_count := wsub stats.free_count 1 })
        else (blocks, free_list, stats)
      | none => (blocks, free_list, stats)
    else (blocks, free_list, stats)

/-- The second half of EarlyAllocator::coalesce: let the free-list
predecessor of `a` absorb `a` (if it is physically adjacent). -/
def coalesce_prev (blocks : List Block) (free_list : List Nat)
    (stats : AllocStats) (a : Nat) : List Block × List Nat × AllocStats :=
  match elem_before free_list a with
  | none => (blocks, free_list, stats)
  | some p =>
    match lookupBlock blocks p, lookupBlock blocks a with
    | some ph, some _ =>
      if p + ph.total_size = a then
        (merge_with_next blocks p, free_list.erase a,
         { stats.record_merge with free_count := wsub stats.free_count 1 })
      else (blocks, free_list, stats)
    | _, _ => (blocks, free_list, stats)

/-- EarlyAllocator::coalesce at the freed block `a`: first try to absorb
the physically next block (if it is Free), then let the free-list
predecessor absorb `a` (if it is physically adjacent). -/
def coalesce (heap_end : Nat) (blocks : List Block) (free_list : List Nat)
    (stats : AllocStats) (a : Nat) : List Block × List Nat × AllocStats :=
  let r := coalesce_next heap_end blocks free_list stats a
  coalesce_prev r.1 r.2.1 r.2.2 a

/-- EarlyAllocator::dealloc. -/
def EarlyAllocator.dealloc (s : EarlyAllocator) (ptr : Nat) :
    EarlyAllocator × Except AllocError Unit :=
  if s.frozen then (s, .error .AllocatorFrozen)
  else if ptr < s.heap_start || s.heap_end < ptr then (s, .error .InvalidPointer)
  else
    let header_addr := wsub ptr HEADER_SIZE
    match lookupBlock s.blocks header_addr with
    | none => ({ s with stats := s.stats.record_corruption }, .error .CorruptedHeader)
    | some h =>
      if !h.validate then
        ({ s with stats := s.stats.record_corruption }, .error .CorruptedHeader)
      else if h.status = .Free then
        ({ s with stats := s.stats.record_double_free }, .error .DoubleFree)
      else
        let block_size := h.size
        let stats1 := s.stats.record_dealloc block_size
        let stats2 := { stats1 with
          free_size := wadd stats1.free_size (block_size + HEADER_SIZE),
          free_count := stats1.free_count + 1 }
        let h1 := BlockHeader.update_checksum { h with status := .Free, timestamp := s.clock }
        let blocks1 := set_hdr_at s.blocks header_addr h1
        let fl1 := insert_into_free_list s.free_list header_addr
        let r := coalesce s.heap_end blocks1 fl1 stats2 header_addr
        ({ s with blocks := r.1, free_list := r.2.1, stats := r.2.2, clock := s.clock + 1 },
         .ok ())

/-- EarlyAllocator::freeze. -/
def EarlyAllocator.freeze (s : EarlyAllocator) : EarlyAllocator :=
  { s with frozen := true }

/-- EarlyAllocator::set_purpose.  Mirrors the source faithfully: there is
no frozen check on this path. -/
def EarlyAllocator.set_purpose (s : EarlyAllocator) (ptr : Nat) (purpose : AllocPurpose) :
    EarlyAllocator × Except AllocError Unit :=
  let header_addr := wsub ptr HEADER_SIZE
  match lookupBlock s.blocks header_addr with
  | none => (s, .error .CorruptedHeader)
  | some h =>
    if !h.validate then (s, .error .CorruptedHeader)
    else if h.status ≠ .Allocated then (s, .error .InvalidPointer)
    else
      let blocks1 := set_hdr_at s.blocks header_addr
        (BlockHeader.update_checksum { h with purpose := purpose })
      ({ s with blocks := blocks1 }, .ok ())

/-- The loop of EarlyAllocator::integrity_check, with fuel (see the
module comment). -/
def integrity_walk (blocks : List Block) (heap_end : Nat) :
    Nat → Nat → Except AllocError Unit
  | fuel, current =>
    if current < heap_end then
      match fuel with
      | 0 => .error .InternalError
      | f + 1 =>
        match lookupBlock blocks current with
        | none => .error .CorruptedHeader
        | some hdr =>
          if hdr.validate then integrity_walk blocks heap_end f (current + hdr.total_size)
          else .error .CorruptedHeader
    else if current = heap_end then .ok ()
    else .error .InternalError

/-- EarlyAllocator::integrity_check. -/
def EarlyAllocator.integrity_check (s : EarlyAllocator) : Except AllocError Unit :=
  integrity_walk s.blocks s.heap_end (s.heap_end + 1) s.heap_start

/-- MAX_TRACKED_BLOCKS from handover.rs. -/
def MAX_TRACKED_BLOCKS : Nat := 512

/-- HANDOVER_PROTOCOL_VERSION. -/
def HANDOVER_PROTOCOL_VERSION : Nat := 1

/-- HANDOVER_MAGIC. -/
def HANDOVER_MAGIC : Nat := 0x48414E444F564552

/-- MemoryPermissions::READ_WRITE as its u8 bit pattern. -/
def READ_WRITE : Nat := 3

/-- AllocatedBlock snapshot from handover.rs (the [u32;2] reserved array
is spelled as two fields). -/
structure AllocatedBlock where
  addr : Nat
  size : Nat
  purpose : AllocPurpose
  alloc_id : Nat
  timestamp : Nat
  permissions : Nat
  alignment : Nat
  reserved0 : Nat
  reserved1 : Nat
deriving DecidableEq, Repr

/-- AllocatedBlock::end_addr. -/
def AllocatedBlock.end_addr (b : AllocatedBlock) : Nat := b.addr + b.size

/-- AllocatedBlock::overlaps_with. -/
def AllocatedBlock.overlaps_with (b1 b2 : AllocatedBlock) : Bool :=
  b1.addr < b2.end_addr && b2.addr < b1.end_addr

/-- The zeroed snapshot entry that HandoverInfo::new fills the fixed
array with. -/
def empty_block : AllocatedBlock :=
  { addr := 0, size := 0, purpose := .Unknown, alloc_id := 0, timestamp := 0,
    permissions := READ_WRITE, alignment := 8, reserved0 := 0, reserved1 := 0 }

/-- PerformanceMetrics from handover.rs. -/
structure PerformanceMetrics where
  avg_alloc_time : Nat
  avg_dealloc_time : Nat
  cache_hit_rate : Nat
  defrag_count : Nat
  max_consecutive_failures : Nat
deriving DecidableEq, Repr

/-- AllocatorState from handover.rs. -/
structure AllocatorState where
  frozen : Bool
  integrity_ok : Bool
  health_status : Nat
  error_count : Nat
  performance_metrics : PerformanceMetrics
deriving DecidableEq, Repr

/-- HandoverInfo from handover.rs; the fixed [AllocatedBlock; 512] array
is a list of length 512. -/
structure HandoverInfo where
  version : Nat
  magic : Nat
  heap_start : Nat
  heap_end : Nat
  allocated_blocks : List AllocatedBlock
  allocated_count : Nat
  statistics : AllocStats
  allocator_state : AllocatorState
  handover_timestamp : Nat
  checksum : Nat
deriving DecidableEq, Repr

/-- The checksum contribution of the first `n` snapshot entries: the sum
of the u32 truncations of addr, size and alloc_id of each. -/
def snapshot_checksum_sum (blocks : List AllocatedBlock) : Nat → Nat
  | 0 => 0
  | i + 1 =>
    snapshot_checksum_sum blocks i
      + ((blocks.getD i empty_block).addr % U32
         + (blocks.getD i empty_block).size % U32
         + (blocks.getD i empty_block).alloc_id % U32)

/-- HandoverInfo::calculate_checksum: u32 wrapping adds over version, the
two halves of the magic, heap_start, heap_end, allocated_count, and the
addr/size/alloc_id of the first min(count, 16) snapshots. -/
def HandoverInfo.calculate_checksum (info : HandoverInfo) : Nat :=
  (info.version + info.magic % U32 + info.magic / U32 % U32
    + info.heap_start % U32 + info.heap_end % U32 + info.allocated_count % U32
    + snapshot_checksum_sum info.allocated_blocks (min info.allocated_count 16)) % U32

/-- HandoverInfo::update_checksum. -/
def HandoverInfo.update_checksum (info : HandoverInfo) : HandoverInfo :=
  { info with checksum := info.calculate_checksum }

/-- HandoverInfo::new.  Note the second parameter really is stored as the
heap_end field, exactly as in the source. -/
def HandoverInfo.new (heap_start heap_end : Nat) (stats : AllocStats) (ts : Nat) : HandoverInfo :=
  HandoverInfo.update_checksum
    { version := HANDOVER_PROTOCOL_VERSION, magic := HANDOVER_MAGIC,
      heap_start := heap_start, heap_end := heap_end,
      allocated_blocks := List.replicate MAX_TRACKED_BLOCKS empty_block,
      allocated_count := 0, statistics := stats,
      allocator_state :=
        { frozen := false, integrity_ok := true, health_status := 0, error_count := 0,
          performance_metrics :=
            { avg_alloc_time := 0, avg_dealloc_time := 0, cache_hit_rate := 100,
              defrag_count := 0, max_consecutive_failures := 0 } },
      handover_timestamp := ts, checksum := 0 }

/-- Sum of the sizes of the first `n` snapshot entries. -/
def snapshot_size_sum (blocks : List AllocatedBlock) : Nat → Nat
  | 0 => 0
  | i + 1 => snapshot_size_sum blocks i + (blocks.getD i empty_block).size

/-- HandoverInfo::allocated_size. -/
def HandoverInfo.allocated_size (info : HandoverInfo) : Nat :=
  snapshot_size_sum info.allocated_blocks info.allocated_count

/-- Bounded boolean universal quantifier: `p 0 && ... && p (n-1)` (the
for-loops of HandoverInfo::validate). -/
def all_below : Nat → (Nat → Bool) → Bool
  | 0, _ => true
  | n + 1, p => all_below n p && p n

/-- HandoverInfo::validate, with the source's error strings and check
order. -/
def HandoverInfo.validate (info : HandoverInfo) : Except String Unit :=
  if info.magic ≠ HANDOVER_MAGIC then .error "Invalid handover magic"
  else if info.version ≠ HANDOVER_PROTOCOL_VERSION then .error "Unsupported protocol version"
  else if info.heap_end ≤ info.heap_start then .error "Invalid heap range"
  else if MAX_TRACKED_BLOCKS < info.allocated_count then .error "Too many allocated blocks"
  else if info.checksum ≠ info.calculate_checksum then .error "Checksum validation failed"
  else if !(all_below info.allocated_count (fun i =>
      let b := info.allocated_blocks.getD i empty_block
      decide (info.heap_start ≤ b.addr) && decide (b.end_addr ≤ info.heap_end))) then
    .error "Block outside heap range"
  else if !(all_below info.allocated_count (fun i =>
      all_below info.allocated_count (fun j =>
        if i < j then
          !(info.allocated_blocks.getD i empty_block).overlaps_with
            (info.allocated_blocks.getD j empty_block)
        else true))) then
    .error "Overlapping blocks detected"
  else if info.allocated_size ≠ info.statistics.used_size then .error "Statistics mismatch"
  else .ok ()

/-- The snapshot record that prepare_handover builds for an Allocated
header found at address `current`. -/
def AllocatedBlock.of_header (current : Nat) (hdr : BlockHeader) : AllocatedBlock :=
  { addr := current + HEADER_SIZE, size := hdr.size, purpose := hdr.purpose,
    alloc_id := hdr.alloc_id, timestamp := hdr.timestamp,
    permissions := READ_WRITE, alignment := 8, reserved0 := 0, reserved1 := 0 }

/-- The header-chain walk of prepare_handover, with fuel.  Reaching the
capacity bound while on an Allocated header breaks out of the loop, as
in the source. -/
def handover_walk (blocks : List Block) (heap_end : Nat) :
    Nat → Nat → HandoverInfo → HandoverInfo
  | fuel, current, info =>
    if current < heap_end then
      match fuel with
      | 0 => info
      | f + 1 =>
        match lookupBlock blocks current with
        | none => info
        | some hdr =>
        if hdr.status = .Allocated then
          if info.allocated_count < MAX_TRACKED_BLOCKS then
            handover_walk blocks heap_end f (current + hdr.total_size)
              { info with
                allocated_blocks :=
                  info.allocated_blocks.set info.allocated_count
                    (AllocatedBlock.of_header current hdr),
                allocated_count := info.allocated_count + 1 }
          else info
        else handover_walk blocks heap_end f (current + hdr.total_size) info
    else info

/-- EarlyAllocator::prepare_handover, modelled as the package contents it
builds (the EarlyBox the source wraps the package in — an allocation
from the very allocator being handed over — is outside the data model).
Note the faithful quirk: the walk starts from HandoverInfo::new applied
to the heap SIZE as its heap_end argument, exactly as the call site
passes `self.heap_end - self.heap_start`. -/
def EarlyAllocator.prepare_handover (s : EarlyAllocator) : HandoverInfo :=
  let info := HandoverInfo.new s.heap_start (wsub s.heap_end s.heap_start) s.stats s.clock
  HandoverInfo.update_checksum
    (handover_walk s.blocks s.heap_end (s.heap_end + 1) s.heap_start info)

/-- The allocator produced by a successful EarlyAllocator::new, for use
in concrete test states (total on the error case, which never occurs at
the call sites below). -/
def mkInit (start size : Nat) : EarlyAllocator :=
  (EarlyAllocator.new start size 0).toOption.getD
    { heap_start := 0, heap_end := 0, blocks := [], free_list := [],
      stats := AllocStats.new 0, frozen := false, next_alloc_id := 1, clock := 0 }

deriving instance DecidableEq for Except

/-- A freshly initialized 256-byte heap at address 16, with one 100-byte
allocation performed and the allocator then frozen (the allocation's
user pointer is 64). -/
def frozen_with_alloc : EarlyAllocator :=
  ((mkInit 16 256).alloc_aligned 100 8).1.freeze

/-!  Specification-side definitions for the invariant development:
observations of the block chain used to state what the allocator
maintains. -/

/-- The block list tiles the address range [a, e): the first header sits
at `a`, each next one immediately after the previous block's bytes, and
the last block ends exactly at `e`. -/
def tiles : Nat → Nat → List Block → Prop
  | a, e, [] => a = e
  | a, e, b :: bs => b.addr = a ∧ tiles (a + b.hdr.total_size) e bs

/-- Addresses of the Free blocks, in chain (= address) order. -/
def free_addrs : List Block → List Nat
  | [] => []
  | b :: bs => if b.hdr.status = .Free then b.addr :: free_addrs bs else free_addrs bs

/-- Number of Free blocks in the chain. -/
def num_free : List Block → Nat
  | [] => 0
  | b :: bs => (if b.hdr.status = .Free then 1 else 0) + num_free bs

/-- Number of Allocated blocks in the chain. -/
def num_alloc : List Block → Nat
  | [] => 0
  | b :: bs => (if b.hdr.status = .Allocated then 1 else 0) + num_alloc bs

/-- Total payload bytes of the Allocated blocks. -/
def alloc_bytes : List Block → Nat
  | [] => 0
  | b :: bs => (if b.hdr.status = .Allocated then b.hdr.size else 0) + alloc_bytes bs

/-- Total footprint (header plus payload) of the Allocated blocks. -/
def allocated_footprint : List Block → Nat
  | [] => 0
  | b :: bs => (if b.hdr.status = .Allocated then b.hdr.total_size else 0) + allocated_footprint bs

/-- Two chain neighbours are never both Free (eager coalescing). -/
def no_adjacent_free (bs : List Block) : Prop :=
  List.Chain' (fun b c => ¬(b.hdr.status = .Free ∧ c.hdr.status = .Free)) bs

/-- The allocator's structural invariant: the chain tiles the heap, every
header validates, the maintained free list is exactly the Free blocks in
address order, no two Free blocks are adjacent, and the statistics
counters stand in the stated relation to the chain. -/
structure Inv (s : EarlyAllocator) : Prop where
  tiles_inv : tiles s.heap_start s.heap_end s.blocks
  valid_inv : ∀ b ∈ s.blocks, b.hdr.validate = true
  fl_inv : s.free_list = free_addrs s.blocks
  adj_inv : no_adjacent_free s.blocks
  used_inv : s.stats.used_size = alloc_bytes s.blocks
  ac_inv : s.stats.alloc_count = num_alloc s.blocks
  fc_inv : s.stats.free_count = num_free s.blocks
  end_lt : s.heap_end < USIZE
  fs_lt : s.stats.free_size < USIZE
  sum_inv : ((s.stats.free_size + 2 * alloc_bytes s.blocks
               + HEADER_SIZE * num_alloc s.blocks : Nat) : ZMod USIZE)
              = ((s.heap_end - s.heap_start : Nat) : ZMod USIZE)

/-- The reachable allocator states: a successful, non-overflowing init
followed by any sequence of alloc_aligned (alloc is alloc_aligned with
align 8), dealloc, freeze and set_purpose calls. -/
inductive Reachable : EarlyAllocator → Prop where
  | init (start size clock : Nat) (s : EarlyAllocator)
      (hof : start + size < USIZE)
      (h : EarlyAllocator.new start size clock = .ok s) : Reachable s
  | alloc_aligned (s : EarlyAllocator) (size align : Nat) (h : Reachable s) :
      Reachable (s.alloc_aligned size align).1
  | dealloc (s : EarlyAllocator) (ptr : Nat) (h : Reachable s) :
      Reachable (s.dealloc ptr).1
  | freeze (s : EarlyAllocator) (h : Reachable s) : Reachable s.freeze
  | set_purpose (s : EarlyAllocator) (ptr : Nat) (p : AllocPurpose) (h : Reachable s) :
      Reachable (s.set_purpose ptr p).1

/-!  Theorems.  Each claim of CLAIMS.json has exactly one theorem below
(plus a counterexample / witness where required). -/

/-- Claim C1: the spec says `prepare_handover().validate()` succeeds on a
freshly frozen, unmutated allocator.  The code does not satisfy this:
prepare_handover passes `heap_end - heap_start` (the heap SIZE) where
HandoverInfo::new stores its `heap_end` field, so validate rejects the
package with "Invalid heap range" whenever heap_start ≥ heap_size — here
a freshly frozen 1 MiB heap at address 2^31. -/
theorem C1_fresh_frozen_handover_validate_rejected :
    (EarlyAllocator.new (2 ^ 31) (2 ^ 20) 0).toOption.map
        (fun s => s.freeze.prepare_handover.validate)
      = some (.error "Invalid heap range") := by
  rfl

/-- Claim C2: the spec says every mutating operation on a frozen
allocator fails with AllocatorFrozen.  set_purpose has no frozen check:
on a frozen allocator with one allocated block it returns Ok and rewrites
the block header's purpose field (from Unknown to KernelStack). -/
theorem C2_set_purpose_mutates_frozen_allocator :
    frozen_with_alloc.frozen = true ∧
    (frozen_with_alloc.set_purpose 64 .KernelStack).2 = .ok () ∧
    ((frozen_with_alloc.set_purpose 64 .KernelStack).1.frozen = true) ∧
    (lookupBlock frozen_with_alloc.blocks 16).map (·.purpose) = some .Unknown ∧
    (lookupBlock (frozen_with_alloc.set_purpose 64 .KernelStack).1.blocks 16).map (·.purpose)
      = some .KernelStack := by
  decide

/-- Claim C4: the spec says no statistics counter ever underflows.  On a
256-byte heap, alloc(100) consumes the whole 208-byte block; free_size
is first debited for the removed block (becoming 0) and then debited
again by record_alloc, wrapping to 2^64 - 208 — larger than the whole
heap, i.e. the unsigned subtraction underflowed. -/
theorem C4_record_alloc_free_size_underflow :
    ((mkInit 16 256).alloc_aligned 100 8).2 = some 64 ∧
    ((mkInit 16 256).alloc_aligned 100 8).1.stats.free_size = USIZE - 208 ∧
    (mkInit 16 256).stats.total_size < USIZE - 208 := by
  decide

/-- Claim C7 counterexample: two headers differing only in purpose have
the SAME recomputed checksum (the claim says different), because
calculate_checksum omits the purpose field. -/
theorem C7_counterexample_purpose_not_in_checksum :
    ({ BlockHeader.new 100 .Free 0 with purpose := .KernelStack } : BlockHeader).purpose
        ≠ (BlockHeader.new 100 .Free 0).purpose ∧
    BlockHeader.calculate_checksum { BlockHeader.new 100 .Free 0 with purpose := .KernelStack }
      = BlockHeader.calculate_checksum (BlockHeader.new 100 .Free 0) := by
  decide

/-- Claim C7 (amended): validate checks the magic, a nonzero size, and
compares the stored checksum against one recomputed over
{size, status, magic, alloc_id, timestamp} — excluding both the stored
checksum field and the purpose field, so purpose changes never change
the recomputed checksum. -/
theorem C7_validate_and_checksum_fields :
    ∀ (h : BlockHeader) (p : AllocPurpose) (c : Nat),
      BlockHeader.calculate_checksum { h with purpose := p, checksum := c }
        = BlockHeader.calculate_checksum h ∧
      (h.validate = true ↔
        (h.magic = BLOCK_MAGIC ∧ h.size ≠ 0 ∧ h.checksum = h.calculate_checksum)) := by
  intro h p c
  refine ⟨rfl, ?_⟩
  unfold BlockHeader.validate
  split_ifs with h1 h2 h3 <;> simp_all

/-- Claim C8 counterexample: EarlyAllocator::new accepts a start address
that is not 16-byte aligned (the claim says it must fail). -/
theorem C8_counterexample_unaligned_start_accepted :
    (8 : Nat) % 16 ≠ 0 ∧ (EarlyAllocator.new 8 1024 0).isOk = true := by
  decide

/-- Claim C8 (amended): EarlyAllocator::new fails, with InvalidParameter,
exactly for a zero start or a size below 2×(header + free-node) = 128
bytes (zero size is subsumed); the start's alignment is not checked at
this layer. -/
theorem C8_new_rejects_exactly_zero_start_or_small_size :
    ∀ start size clock,
      ((EarlyAllocator.new start size clock).isOk = true ↔
        (start ≠ 0 ∧ min_heap_size ≤ size)) ∧
      ((start = 0 ∨ size < min_heap_size) →
        EarlyAllocator.new start size clock = .error .InvalidParameter) := by
  intro start size clock
  constructor
  · unfold EarlyAllocator.new
    rcases Nat.eq_zero_or_pos start with h | h
    · simp [h, Except.isOk, Except.toBool]
    · rcases Nat.lt_or_ge size min_heap_size with h2 | h2
      · simp [Nat.pos_iff_ne_zero.mp h, h2, Nat.not_le.mpr h2, Except.isOk, Except.toBool]
      · simp [Nat.pos_iff_ne_zero.mp h, Nat.not_lt.mpr h2, h2, Except.isOk, Except.toBool]
  · intro h
    unfold EarlyAllocator.new
    rcases h with h | h
    · simp [h]
    · simp [h]

/-- Claim C8 witness. -/
theorem C8_witness_zero_start_rejected :
    EarlyAllocator.new 0 1024 0 = .error .InvalidParameter :=
  (C8_new_rejects_exactly_zero_start_or_small_size 0 1024 0).2 (Or.inl rfl)

/-- Claim C3 counterexample: immediately after init on a 256-byte heap
(one block present, so 48 header bytes), used_size + free_size is 256,
not 256 - 48: init seeds free_size with the whole heap size, headers
included. -/
theorem C3_counterexample_sum_at_init :
    (mkInit 16 256).stats.used_size + (mkInit 16 256).stats.free_size = 256 ∧
    (256 : Nat) ≠ 256 - HEADER_SIZE := by
  decide

/-- Claim C9 counterexample: after init on a 256-byte heap the statistics
report free_size = 256 = heap_size, not heap_size - overhead = 208. -/
theorem C9_counterexample_free_size_includes_header :
    (EarlyAllocator.new 16 256 0).isOk = true ∧
    (mkInit 16 256).stats.free_size = 256 ∧ (256 : Nat) ≠ 256 - HEADER_SIZE := by
  decide

/-- Projections of a checksum update (the checksum field is not itself
an input of the recomputation). -/
theorem calculate_checksum_update (h : BlockHeader) :
    (h.update_checksum).calculate_checksum = h.calculate_checksum := rfl

/-- A header whose checksum was just recomputed validates, provided its
magic is intact and its size is nonzero. -/
theorem validate_update_checksum (h : BlockHeader)
    (hm : h.magic = BLOCK_MAGIC) (hs : h.size ≠ 0) :
    (h.update_checksum).validate = true := by
  unfold BlockHeader.validate
  have h1 : (h.update_checksum).magic = h.magic := rfl
  have h2 : (h.update_checksum).size = h.size := rfl
  have h3 : (h.update_checksum).checksum = h.calculate_checksum := rfl
  rw [h1, h2, h3, hm, calculate_checksum_update]
  simp [hs]

/-- BlockHeader::new validates whenever the size is nonzero. -/
theorem validate_new (size : Nat) (st : BlockStatus) (ts : Nat) (hs : size ≠ 0) :
    (BlockHeader.new size st ts).validate = true :=
  validate_update_checksum _ rfl hs

/-- One step of the integrity walk over a valid header. -/
theorem integrity_walk_step (blocks : List Block) (heap_end f current : Nat)
    (hdr : BlockHeader) (h1 : current < heap_end)
    (h2 : lookupBlock blocks current = some hdr) (h3 : hdr.validate = true) :
    integrity_walk blocks heap_end (f + 1) current
      = integrity_walk blocks heap_end f (current + hdr.total_size) := by
  rw [integrity_walk]
  simp [h1, h2, h3]

/-- The integrity walk accepts as soon as it lands exactly on heap_end. -/
theorem integrity_walk_at_end (blocks : List Block) (heap_end fuel : Nat) :
    integrity_walk blocks heap_end fuel heap_end = .ok () := by
  rw [integrity_walk.eq_def]
  simp

/-- Claim C9 (amended): for every valid init (nonzero start, size at
least the 128-byte minimum, no address overflow), init followed
immediately by integrity_check succeeds, and the statistics satisfy
free_size = heap_size (the initial block's header bytes are counted as
free, so there is no `- overhead` term) and free_count = 1. -/
theorem C9_init_integrity_and_free_size :
    ∀ start size : Nat, start ≠ 0 → min_heap_size ≤ size → start + size < USIZE →
      (EarlyAllocator.new start size 0).isOk = true ∧
      (mkInit start size).integrity_check = .ok () ∧
      (mkInit start size).stats.free_size = size ∧
      (mkInit start size).stats.free_count = 1 := by
  intro start size h0 hmin hlt
  have hmin' : (128 : Nat) ≤ size := hmin
  have hnlt : ¬ size < min_heap_size := Nat.not_lt.mpr hmin
  have hmk : mkInit start size =
      ⟨start, wadd start size, [⟨start, BlockHeader.new (size - HEADER_SIZE) .Free 0⟩],
       [start],
       { AllocStats.new size with free_size := size, free_count := 1,
                                  max_free_block_size := size },
       false, 1, 1⟩ := by
    unfold mkInit EarlyAllocator.new
    rw [if_neg (by simp [h0, hnlt])]
    rfl
  refine ⟨?_, ?_, ?_, ?_⟩
  · unfold EarlyAllocator.new
    simp [h0, hnlt, Except.isOk, Except.toBool]
  · rw [hmk]
    show integrity_walk [⟨start, BlockHeader.new (size - HEADER_SIZE) .Free 0⟩]
      (wadd start size) (wadd start size + 1) start = .ok ()
    have hend : wadd start size = start + size := Nat.mod_eq_of_lt hlt
    rw [hend]
    have h1 : start < start + size := by omega
    have h2 : lookupBlock [⟨start, BlockHeader.new (size - HEADER_SIZE) .Free 0⟩] start
        = some (BlockHeader.new (size - HEADER_SIZE) .Free 0) := by
      simp [lookupBlock]
    have h3 : (BlockHeader.new (size - HEADER_SIZE) .Free 0).validate = true := by
      refine validate_new _ _ _ ?_
      unfold HEADER_SIZE
      omega
    rw [integrity_walk_step _ _ (start + size) start _ h1 h2 h3]
    have htot : start + (BlockHeader.new (size - HEADER_SIZE) .Free 0).total_size
        = start + size := by
      show start + ((size - HEADER_SIZE) + HEADER_SIZE) = start + size
      unfold HEADER_SIZE
      omega
    rw [htot]
    exact integrity_walk_at_end _ _ _
  · rw [hmk]
  · rw [hmk]

/-- Claim C9 witness. -/
theorem C9_witness_256 :
    (EarlyAllocator.new 16 256 0).isOk = true ∧
    (mkInit 16 256).integrity_check = .ok () ∧
    (mkInit 16 256).stats.free_size = 256 ∧
    (mkInit 16 256).stats.free_count = 1 :=
  C9_init_integrity_and_free_size 16 256 (by decide) (by decide) (by decide)

/-- Claim C5 counterexample: ptr = heap_end lies outside
[heap_start, heap_end), but the range check only rejects ptr > heap_end,
so the result is not InvalidPointer — the call falls through to the
header read at heap_end - 48 and reports CorruptedHeader. -/
theorem C5_counterexample_heap_end_pointer :
    (mkInit 16 256).heap_end = 272 ∧
    ((mkInit 16 256).dealloc 272).2 = .error .CorruptedHeader := by
  decide

/-- Claim C5 (amended): on an unfrozen allocator, dealloc rejects
ptr < heap_start or ptr > heap_end with InvalidPointer (ptr = heap_end
slips past the range check); an in-range ptr whose back-offset address
holds no valid header gives CorruptedHeader and bumps only
corrupted_blocks; an already-Free header gives DoubleFree and bumps only
double_free_attempts; in each error case the block headers and the free
list are untouched (the state changes at most in the stats field), so a
subsequent integrity_check returns exactly what it did before. -/
theorem C5_dealloc_error_paths :
    ∀ (s : EarlyAllocator) (ptr : Nat) (h : BlockHeader) (st' : AllocStats),
      s.frozen = false →
      ((ptr < s.heap_start ∨ s.heap_end < ptr →
          s.dealloc ptr = (s, .error .InvalidPointer)) ∧
       (s.heap_start ≤ ptr → ptr ≤ s.heap_end →
          lookupBlock s.blocks (wsub ptr HEADER_SIZE) = none →
          s.dealloc ptr
            = ({ s with stats := s.stats.record_corruption }, .error .CorruptedHeader)) ∧
       (s.heap_start ≤ ptr → ptr ≤ s.heap_end →
          lookupBlock s.blocks (wsub ptr HEADER_SIZE) = some h → h.validate = false →
          s.dealloc ptr
            = ({ s with stats := s.stats.record_corruption }, .error .CorruptedHeader)) ∧
       (s.heap_start ≤ ptr → ptr ≤ s.heap_end →
          lookupBlock s.blocks (wsub ptr HEADER_SIZE) = some h → h.validate = true →
          h.status = .Free →
          s.dealloc ptr
            = ({ s with stats := s.stats.record_double_free }, .error .DoubleFree)) ∧
       (({ s with stats := st' } : EarlyAllocator).integrity_check = s.integrity_check)) := by
  intro s ptr h st' hfrozen
  refine ⟨?_, ?_, ?_, ?_, rfl⟩
  · intro hor
    unfold EarlyAllocator.dealloc
    have : (decide (ptr < s.heap_start) || decide (s.heap_end < ptr)) = true := by
      rcases hor with h1 | h1 <;> simp [h1]
    simp [hfrozen, this]
  · intro hl1 hl2 hlook
    unfold EarlyAllocator.dealloc
    simp [hfrozen, Nat.not_lt.mpr hl1, Nat.not_lt.mpr hl2, hlook]
  · intro hl1 hl2 hlook hval
    unfold EarlyAllocator.dealloc
    simp [hfrozen, Nat.not_lt.mpr hl1, Nat.not_lt.mpr hl2, hlook, hval]
  · intro hl1 hl2 hlook hval hst
    unfold EarlyAllocator.dealloc
    simp [hfrozen, Nat.not_lt.mpr hl1, Nat.not_lt.mpr hl2, hlook, hval, hst]

/-- Claim C5 witness. -/
theorem C5_witness_low_pointer :
    (mkInit 16 256).dealloc 8 = ((mkInit 16 256), .error .InvalidPointer) :=
  ((C5_dealloc_error_paths (mkInit 16 256) 8 (BlockHeader.new 1 .Free 0)
      (AllocStats.new 0) (by decide)).1) (Or.inl (by decide))

/-- Rounding up to an alignment boundary yields a multiple of align. -/
theorem calculate_aligned_addr_mod (a align : Nat) (h : 1 ≤ align) :
    calculate_aligned_addr a align % align = 0 := by
  unfold calculate_aligned_addr
  have h2 := Nat.div_add_mod (a + HEADER_SIZE + align - 1) align
  have h3 : a + HEADER_SIZE + align - 1 - (a + HEADER_SIZE + align - 1) % align
      = align * ((a + HEADER_SIZE + align - 1) / align) := by omega
  rw [h3]
  exact Nat.mul_mod_right _ _

/-- Rounding up to an alignment boundary does not go below the unaligned
payload start. -/
theorem calculate_aligned_addr_ge (a align : Nat) (h : 1 ≤ align) :
    a + HEADER_SIZE ≤ calculate_aligned_addr a align := by
  show a + HEADER_SIZE ≤
    (a + HEADER_SIZE + align - 1) - (a + HEADER_SIZE + align - 1) % align
  have h1 : (a + HEADER_SIZE + align - 1) % align < align := Nat.mod_lt _ (by omega)
  omega

/-- Claim C10 counterexample: a candidate whose total size (header plus
payload) covers the padded requirement, but whose payload does not, is
rejected by the first-fit scan — the code tests the payload size, not
the total size the claim describes. -/
theorem C10_counterexample_payload_not_total :
    find_free_block [⟨16, BlockHeader.new 100 .Free 0⟩] 60 8 [16] = none ∧
    calculate_aligned_addr 16 8 - 16 + 60 ≤ (BlockHeader.new 100 .Free 0).total_size := by
  decide

/-- Claim C10 (amended): during the first-fit scan the aligned payload
start is (block address + header size) rounded up to the alignment
boundary, and the required space is (aligned start − block address) +
requested size; a candidate qualifies exactly when its PAYLOAD size
(header excluded) covers this padded requirement. -/
theorem C10_find_free_block_spec :
    ∀ (blocks : List Block) (size align : Nat), 1 ≤ align →
      ∀ fl : List Nat,
      ((∀ (b : Block) (u : Nat), find_free_block blocks size align fl = some (b, u) →
         u = calculate_aligned_addr b.addr align ∧
         u % align = 0 ∧
         b.addr + HEADER_SIZE ≤ u ∧
         u - b.addr + size ≤ b.hdr.size ∧
         lookupBlock blocks b.addr = some b.hdr) ∧
       (find_free_block blocks size align fl = none →
         ∀ a ∈ fl, ∀ hh : BlockHeader, lookupBlock blocks a = some hh →
           hh.size < calculate_aligned_addr a align - a + size)) := by
  intro blocks size align hal fl
  induction fl with
  | nil =>
    constructor
    · intro b u hsome
      simp [find_free_block] at hsome
    · intro _ a ha
      simp at ha
  | cons x xs ih =>
    constructor
    · intro b u hsome
      rw [find_free_block] at hsome
      cases hlk : lookupBlock blocks x with
      | none =>
        rw [hlk] at hsome
        exact ih.1 b u hsome
      | some hh =>
        rw [hlk] at hsome
        by_cases hfit : calculate_aligned_addr x align - x + size ≤ hh.size
        · simp only [hfit, if_true] at hsome
          obtain ⟨hb, hu⟩ := Prod.mk.injEq .. ▸ (Option.some.injEq .. ▸ hsome)
          subst hb
          subst hu
          exact ⟨rfl, calculate_aligned_addr_mod x align hal,
                 calculate_aligned_addr_ge x align hal, hfit, hlk⟩
        · simp only [hfit, if_false] at hsome
          exact ih.1 b u hsome
    · intro hnone a ha hh hlka
      rw [find_free_block] at hnone
      cases hlk : lookupBlock blocks x with
      | none =>
        rw [hlk] at hnone
        rcases List.mem_cons.mp ha with rfl | hmem
        · rw [hlka] at hlk
          cases hlk
        · exact ih.2 hnone a hmem hh hlka
      | some hh2 =>
        rw [hlk] at hnone
        by_cases hfit : calculate_aligned_addr x align - x + size ≤ hh2.size
        · simp [hfit] at hnone
        · simp only [hfit, if_false] at hnone
          rcases List.mem_cons.mp ha with rfl | hmem
          · rw [hlka] at hlk
            injection hlk with he
            subst he
            exact Nat.not_le.mp hfit
          · exact ih.2 hnone a hmem hh hlka

/-! Arithmetic helpers for the wrapped usize operations. -/

theorem USIZE_pos : 0 < USIZE := by
  unfold USIZE
  exact Nat.pos_pow_of_pos 64 (by omega)

theorem wadd_lt (a b : Nat) : wadd a b < USIZE := Nat.mod_lt _ USIZE_pos

theorem wsub_lt (a b : Nat) : wsub a b < USIZE := Nat.mod_lt _ USIZE_pos

theorem wadd_cast (a b : Nat) : ((wadd a b : Nat) : ZMod USIZE) = (a : ZMod USIZE) + b := by
  unfold wadd
  rw [ZMod.natCast_mod]
  push_cast
  ring

theorem wsub_cast (a b : Nat) : ((wsub a b : Nat) : ZMod USIZE) = (a : ZMod USIZE) - b := by
  unfold wsub
  rw [ZMod.natCast_mod]
  have h1 : b % USIZE ≤ USIZE := le_of_lt (Nat.mod_lt _ USIZE_pos)
  calc ((a + (USIZE - b % USIZE) : Nat) : ZMod USIZE)
      = (a : ZMod USIZE) + ((USIZE - b % USIZE : Nat) : ZMod USIZE) := by push_cast; ring
    _ = (a : ZMod USIZE) + ((USIZE : ZMod USIZE) - ((b % USIZE : Nat) : ZMod USIZE)) := by
        rw [Nat.cast_sub h1]
    _ = (a : ZMod USIZE) - b := by rw [ZMod.natCast_self, ZMod.natCast_mod]; ring

theorem wsub_small (a b : Nat) (h : b ≤ a) (ha : a < USIZE) : wsub a b = a - b := by
  unfold wsub
  have hb : b < USIZE := lt_of_le_of_lt h ha
  rw [Nat.mod_eq_of_lt hb]
  have h2 : a + (USIZE - b) = (a - b) + USIZE := by omega
  rw [h2, Nat.add_mod_right]
  exact Nat.mod_eq_of_lt (by omega)

theorem is_power_of_two_pos (n : Nat) (h : is_power_of_two n = true) : 1 ≤ n := by
  cases n with
  | zero => exact absurd h (by decide)
  | succ n => omega

/-! Chain (tiling) helpers. -/

theorem total_size_ge (h : BlockHeader) : HEADER_SIZE ≤ h.total_size := by
  unfold BlockHeader.total_size
  omega

theorem tiles_le : ∀ (bs : List Block) (a e : Nat), tiles a e bs → a ≤ e := by
  intro bs
  induction bs with
  | nil => intro a e h; exact le_of_eq h
  | cons b bs ih =>
    intro a e h
    have h2 := ih _ _ h.2
    omega

theorem tiles_append :
    ∀ (P S : List Block) (a e : Nat),
      tiles a e (P ++ S) ↔ ∃ m, tiles a m P ∧ tiles m e S := by
  intro P
  induction P with
  | nil =>
    intro S a e
    constructor
    · intro h; exact ⟨a, rfl, h⟩
    · rintro ⟨m, hm, h⟩
      have : a = m := hm
      rw [this]
      exact h
  | cons b P ih =>
    intro S a e
    constructor
    · rintro ⟨hb, ht⟩
      obtain ⟨m, h1, h2⟩ := (ih S _ e).mp ht
      exact ⟨m, ⟨hb, h1⟩, h2⟩
    · rintro ⟨m, ⟨hb, h1⟩, h2⟩
      exact ⟨hb, (ih S _ e).mpr ⟨m, h1, h2⟩⟩

theorem tiles_mem_bounds :
    ∀ (bs : List Block) (a e : Nat), tiles a e bs →
      ∀ b ∈ bs, a ≤ b.addr ∧ b.addr + b.hdr.total_size ≤ e := by
  intro bs
  induction bs with
  | nil => intro a e _ b hb; cases hb
  | cons c bs ih =>
    intro a e h b hb
    obtain ⟨h1, h2⟩ := h
    have he := tiles_le _ _ _ h2
    rcases List.mem_cons.mp hb with rfl | hmem
    · exact ⟨le_of_eq h1.symm, by omega⟩
    · have h3 := ih _ _ h2 b hmem
      omega

theorem tiles_length_bound :
    ∀ (bs : List Block) (a e : Nat), tiles a e bs →
      a + HEADER_SIZE * bs.length ≤ e := by
  intro bs
  induction bs with
  | nil =>
    intro a e h
    have h' : a = e := h
    simp [h']
  | cons b bs ih =>
    intro a e h
    obtain ⟨hb, ht⟩ := h
    have h2 := ih _ _ ht
    have h3 := total_size_ge b.hdr
    simp only [List.length_cons]
    have h4 : HEADER_SIZE * (bs.length + 1) = HEADER_SIZE * bs.length + HEADER_SIZE := by ring
    omega

/-! Observation helpers on the chain. -/

theorem free_addrs_append (l1 l2 : List Block) :
    free_addrs (l1 ++ l2) = free_addrs l1 ++ free_addrs l2 := by
  induction l1 with
  | nil => rfl
  | cons b l1 ih =>
    simp only [List.cons_append, free_addrs]
    split <;> simp [ih]

theorem num_free_append (l1 l2 : List Block) :
    num_free (l1 ++ l2) = num_free l1 + num_free l2 := by
  induction l1 with
  | nil => simp [num_free]
  | cons b l1 ih =>
    simp only [List.cons_append, num_free, List.append_eq, ih]
    omega

theorem num_alloc_append (l1 l2 : List Block) :
    num_alloc (l1 ++ l2) = num_alloc l1 + num_alloc l2 := by
  induction l1 with
  | nil => simp [num_alloc]
  | cons b l1 ih =>
    simp only [List.cons_append, num_alloc, List.append_eq, ih]
    omega

theorem alloc_bytes_append (l1 l2 : List Block) :
    alloc_bytes (l1 ++ l2) = alloc_bytes l1 + alloc_bytes l2 := by
  induction l1 with
  | nil => simp [alloc_bytes]
  | cons b l1 ih =>
    simp only [List.cons_append, alloc_bytes, List.append_eq, ih]
    omega

theorem allocated_footprint_append (l1 l2 : List Block) :
    allocated_footprint (l1 ++ l2) = allocated_footprint l1 + allocated_footprint l2 := by
  induction l1 with
  | nil => simp [allocated_footprint]
  | cons b l1 ih =>
    simp only [List.cons_append, allocated_footprint, List.append_eq, ih]
    omega

theorem allocated_footprint_eq (bs : List Block) :
    allocated_footprint bs = alloc_bytes bs + HEADER_SIZE * num_alloc bs := by
  induction bs with
  | nil => rfl
  | cons b bs ih =>
    simp only [allocated_footprint, alloc_bytes, num_alloc, ih, BlockHeader.total_size]
    split <;> ring

theorem mem_free_addrs :
    ∀ (bs : List Block) (x : Nat),
      x ∈ free_addrs bs ↔ ∃ b ∈ bs, b.addr = x ∧ b.hdr.status = .Free := by
  intro bs x
  induction bs with
  | nil => simp [free_addrs]
  | cons b bs ih =>
    by_cases hf : b.hdr.status = .Free
    · simp only [free_addrs, if_pos hf]
      simp only [List.mem_cons, ih]
      constructor
      · rintro (rfl | ⟨c, hc, rfl, hcf⟩)
        · exact ⟨b, Or.inl rfl, rfl, hf⟩
        · exact ⟨c, Or.inr hc, rfl, hcf⟩
      · rintro ⟨c, hc | hc, rfl, hcf⟩
        · rw [hc]
          exact Or.inl rfl
        · exact Or.inr ⟨c, hc, rfl, hcf⟩
    · simp only [free_addrs, if_neg hf]
      rw [ih]
      constructor
      · rintro ⟨c, hc, rfl, hcf⟩
        exact ⟨c, List.mem_cons_of_mem _ hc, rfl, hcf⟩
      · rintro ⟨c, hc, rfl, hcf⟩
        rcases List.mem_cons.mp hc with rfl | hc2
        · exact absurd hcf hf
        · exact ⟨c, hc2, rfl, hcf⟩

theorem free_addrs_lower :
    ∀ (bs : List Block) (a e : Nat), tiles a e bs →
      ∀ x ∈ free_addrs bs, a ≤ x := by
  intro bs a e ht x hx
  obtain ⟨b, hb, rfl, _⟩ := (mem_free_addrs bs x).mp hx
  exact (tiles_mem_bounds bs a e ht b hb).1

theorem free_addrs_pairwise :
    ∀ (bs : List Block) (a e : Nat), tiles a e bs →
      List.Pairwise (· < ·) (free_addrs bs) := by
  intro bs
  induction bs with
  | nil => intro a e _; exact List.Pairwise.nil
  | cons b bs ih =>
    intro a e h
    have hrest := ih _ _ h.2
    by_cases hf : b.hdr.status = .Free
    · simp only [free_addrs, if_pos hf]
      refine List.Pairwise.cons ?_ hrest
      intro x hx
      have hx2 := free_addrs_lower bs _ _ h.2 x hx
      have h3 := total_size_ge b.hdr
      have h4 : b.addr = a := h.1
      have h5 : HEADER_SIZE = 48 := rfl
      omega
    · simp only [free_addrs, if_neg hf]
      exact hrest

/-! Decomposition of the chain at a looked-up address, and the effect of
the surgery primitives on such a decomposition. -/

theorem lookup_eq_some_decomp :
    ∀ (bs : List Block) (x : Nat) (h : BlockHeader),
      lookupBlock bs x = some h →
      ∃ P S, bs = P ++ ⟨x, h⟩ :: S ∧ ∀ c ∈ P, c.addr ≠ x := by
  intro bs
  induction bs with
  | nil => intro x h hl; simp [lookupBlock] at hl
  | cons b bs ih =>
    intro x h hl
    by_cases hb : b.addr = x
    · have hfind : lookupBlock (b :: bs) x = some b.hdr := by
        simp [lookupBlock, List.find?_cons_of_pos, hb]
      rw [hfind] at hl
      injection hl with hl
      have hbeq : (⟨x, h⟩ : Block) = b := by rw [← hb, ← hl]
      exact ⟨[], bs, by simp [hbeq], by simp⟩
    · have hrest : lookupBlock bs x = some h := by
        have : lookupBlock (b :: bs) x = lookupBlock bs x := by
          simp [lookupBlock, List.find?_cons_of_neg, hb]
        rw [← this]
        exact hl
      obtain ⟨P, S, rfl, hP⟩ := ih x h hrest
      refine ⟨b :: P, S, by simp, ?_⟩
      intro c hc
      rcases List.mem_cons.mp hc with rfl | h2
      · exact hb
      · exact hP c h2

theorem lookup_append_some :
    ∀ (P : List Block) (S : List Block) (x : Nat) (hh : BlockHeader),
      (∀ c ∈ P, c.addr ≠ x) →
      lookupBlock (P ++ ⟨x, hh⟩ :: S) x = some hh := by
  intro P
  induction P with
  | nil =>
    intro S x hh _
    simp [lookupBlock, List.find?_cons_of_pos]
  | cons c P ih =>
    intro S x hh hP
    have hc : c.addr ≠ x := hP c (by simp)
    have : lookupBlock ((c :: P) ++ ⟨x, hh⟩ :: S) x
        = lookupBlock (P ++ ⟨x, hh⟩ :: S) x := by
      simp [lookupBlock, List.find?_cons_of_neg, hc]
    rw [this]
    exact ih S x hh (fun d hd => hP d (List.mem_cons_of_mem _ hd))

theorem set_hdr_at_append :
    ∀ (P S : List Block) (x : Nat) (h0 h : BlockHeader),
      (∀ c ∈ P, c.addr ≠ x) →
      set_hdr_at (P ++ ⟨x, h0⟩ :: S) x h = P ++ ⟨x, h⟩ :: S := by
  intro P
  induction P with
  | nil => intro S x h0 h _; simp [set_hdr_at]
  | cons c P ih =>
    intro S x h0 h hP
    have hc : c.addr ≠ x := hP c (by simp)
    simp only [List.cons_append, set_hdr_at, if_neg hc, List.append_eq]
    rw [ih S x h0 h (fun d hd => hP d (List.mem_cons_of_mem _ hd))]

theorem remove_at_addr_append :
    ∀ (P S : List Block) (x : Nat) (h0 : BlockHeader),
      (∀ c ∈ P, c.addr ≠ x) →
      remove_at_addr (P ++ ⟨x, h0⟩ :: S) x = P ++ S := by
  intro P
  induction P with
  | nil => intro S x h0 _; simp [remove_at_addr]
  | cons c P ih =>
    intro S x h0 hP
    have hc : c.addr ≠ x := hP c (by simp)
    simp only [List.cons_append, remove_at_addr, if_neg hc, List.append_eq]
    rw [ih S x h0 (fun d hd => hP d (List.mem_cons_of_mem _ hd))]

theorem split_at_addr_append :
    ∀ (P S : List Block) (x : Nat) (h0 h1 h2 : BlockHeader) (na : Nat),
      (∀ c ∈ P, c.addr ≠ x) →
      split_at_addr (P ++ ⟨x, h0⟩ :: S) x h1 na h2 = P ++ ⟨x, h1⟩ :: ⟨na, h2⟩ :: S := by
  intro P
  induction P with
  | nil => intro S x h0 h1 h2 na _; simp [split_at_addr]
  | cons c P ih =>
    intro S x h0 h1 h2 na hP
    have hc : c.addr ≠ x := hP c (by simp)
    simp only [List.cons_append, split_at_addr, if_neg hc, List.append_eq]
    rw [ih S x h0 h1 h2 na (fun d hd => hP d (List.mem_cons_of_mem _ hd))]

/-! The ordered free-list insertion, on a decomposition that straddles
the insertion point. -/

theorem insert_walk_spec :
    ∀ (ys l2 : List Nat) (x c : Nat), c < x → (∀ y ∈ ys, y < x) → (∀ y ∈ l2, x < y) →
      insert_walk x c (ys ++ l2) = c :: (ys ++ x :: l2) := by
  intro ys
  induction ys with
  | nil =>
    intro l2 x c _ _ h2
    cases l2 with
    | nil => rfl
    | cons z zs =>
      have hz := h2 z (by simp)
      simp [insert_walk, Nat.not_lt.mpr (le_of_lt hz)]
  | cons y ys ih =>
    intro l2 x c hc h1 h2
    have hy : y < x := h1 y (by simp)
    simp only [List.cons_append, insert_walk, if_pos hy, List.append_eq]
    rw [ih l2 x y hy (fun z hz => h1 z (List.mem_cons_of_mem _ hz)) h2]

theorem insert_into_free_list_spec :
    ∀ (l1 l2 : List Nat) (x : Nat), (∀ y ∈ l1, y < x) → (∀ y ∈ l2, x < y) →
      insert_into_free_list (l1 ++ l2) x = l1 ++ x :: l2 := by
  intro l1 l2 x h1 h2
  cases l1 with
  | nil =>
    cases l2 with
    | nil => rfl
    | cons z zs =>
      have hz := h2 z (by simp)
      simp [insert_into_free_list, hz]
  | cons y ys =>
    have hy : y < x := h1 y (by simp)
    simp only [List.cons_append, insert_into_free_list, if_neg (by omega : ¬ x < y)]
    rw [insert_walk_spec ys l2 x y hy (fun z hz => h1 z (List.mem_cons_of_mem _ hz)) h2]

/-! The doubly-linked-list predecessor, on a sorted decomposition. -/

theorem elem_before_not_mem :
    ∀ (l : List Nat) (a : Nat), a ∉ l → elem_before l a = none := by
  intro l
  induction l with
  | nil => intro a _; rfl
  | cons x t ih =>
    intro a ha
    cases t with
    | nil => rfl
    | cons y rest =>
      have hy : y ≠ a := by
        intro h
        exact ha (by simp [h])
      have ht : a ∉ y :: rest := fun h => ha (List.mem_cons_of_mem _ h)
      simp only [elem_before, if_neg hy]
      exact ih a ht

theorem elem_before_append :
    ∀ (l1 l2 : List Nat) (a : Nat), a ∉ l1 → a ∉ l2 →
      elem_before (l1 ++ a :: l2) a = l1.getLast? := by
  intro l1
  induction l1 with
  | nil =>
    intro l2 a _ h2
    cases l2 with
    | nil => rfl
    | cons y rest =>
      have hy : y ≠ a := by
        intro h
        exact h2 (by simp [h])
      simp only [List.nil_append, elem_before, if_neg hy]
      exact elem_before_not_mem _ _ h2
  | cons x l1' ih =>
    intro l2 a h1 h2
    cases l1' with
    | nil =>
      simp [elem_before]
    | cons z l1'' =>
      have hz : z ≠ a := by
        intro h
        exact h1 (by simp [h])
      have ha1 : a ∉ z :: l1'' := fun h => h1 (List.mem_cons_of_mem _ h)
      simp only [List.cons_append, elem_before, if_neg hz, List.append_eq]
      have h3 := ih l2 a ha1 h2
      simp only [List.cons_append] at h3
      rw [h3, List.getLast?_cons_cons]

/-- Claim C10 witness. -/
theorem C10_witness_accept :
    calculate_aligned_addr 16 8 % 8 = 0 ∧
    (64 : Nat) - 16 + 40 ≤ (BlockHeader.new 100 .Free 0).size :=
  let spec := (C10_find_free_block_spec [⟨16, BlockHeader.new 100 .Free 0⟩] 40 8
    (by decide) [16]).1 ⟨16, BlockHeader.new 100 .Free 0⟩ 64 (by decide)
  ⟨spec.2.1, spec.2.2.2.1⟩

/-! Further structural helpers for the preservation proofs. -/

theorem validate_eq_true_iff (h : BlockHeader) :
    h.validate = true ↔
      (h.magic = BLOCK_MAGIC ∧ h.size ≠ 0 ∧ h.checksum = h.calculate_checksum) := by
  unfold BlockHeader.validate
  split_ifs with h1 h2 h3 <;> simp_all

theorem tiles_sum_total :
    ∀ (bs : List Block) (a e : Nat), tiles a e bs →
      a + (bs.map (fun b => b.hdr.total_size)).sum = e := by
  intro bs
  induction bs with
  | nil =>
    intro a e h
    have h' : a = e := h
    simp [h']
  | cons b bs ih =>
    intro a e h
    have h2 := ih _ _ h.2
    simp only [List.map_cons, List.sum_cons]
    omega

theorem footprint_le_sum_total :
    ∀ bs : List Block, allocated_footprint bs ≤ (bs.map (fun b => b.hdr.total_size)).sum := by
  intro bs
  induction bs with
  | nil => simp [allocated_footprint]
  | cons b bs ih =>
    simp only [allocated_footprint, List.map_cons, List.sum_cons]
    split <;> omega

theorem tiles_footprint_le (bs : List Block) (a e : Nat) (h : tiles a e bs) :
    allocated_footprint bs ≤ e - a := by
  have h1 := tiles_sum_total bs a e h
  have h2 := footprint_le_sum_total bs
  omega

theorem alloc_bytes_le_footprint (bs : List Block) :
    alloc_bytes bs ≤ allocated_footprint bs := by
  rw [allocated_footprint_eq]
  omega

theorem num_free_le_length : ∀ bs : List Block, num_free bs ≤ bs.length := by
  intro bs
  induction bs with
  | nil => simp [num_free]
  | cons b bs ih =>
    simp only [num_free, List.length_cons]
    split <;> omega

theorem num_alloc_le_length : ∀ bs : List Block, num_alloc bs ≤ bs.length := by
  intro bs
  induction bs with
  | nil => simp [num_alloc]
  | cons b bs ih =>
    simp only [num_alloc, List.length_cons]
    split <;> omega

theorem tiles_length_lt_USIZE (bs : List Block) (a e : Nat)
    (h : tiles a e bs) (he : e < USIZE) : bs.length < USIZE := by
  have h1 := tiles_length_bound bs a e h
  have h2 : HEADER_SIZE = 48 := rfl
  have h3 : bs.length ≤ HEADER_SIZE * bs.length := by
    calc bs.length = 1 * bs.length := (Nat.one_mul _).symm
    _ ≤ HEADER_SIZE * bs.length := Nat.mul_le_mul_right _ (by omega)
  omega

theorem tiles_reassemble (P S : List Block) (hs a e : Nat) (mid : Block)
    (h1 : tiles hs a P) (h2 : mid.addr = a) (h3 : tiles (a + mid.hdr.total_size) e S) :
    tiles hs e (P ++ mid :: S) := by
  refine (tiles_append P (mid :: S) hs e).mpr ⟨a, h1, h2, ?_⟩
  exact h3

theorem no_adj_mid_status (P S : List Block) (mid mid' : Block)
    (h : no_adjacent_free (P ++ mid :: S)) (h2 : mid'.hdr.status = mid.hdr.status) :
    no_adjacent_free (P ++ mid' :: S) := by
  unfold no_adjacent_free at *
  rw [List.chain'_append] at h ⊢
  obtain ⟨hP, hMS, hb⟩ := h
  refine ⟨hP, ?_, ?_⟩
  · rcases S with _ | ⟨c, S'⟩
    · simp
    · rw [List.chain'_cons] at hMS ⊢
      refine ⟨fun hff => hMS.1 ⟨by rw [← h2]; exact hff.1, hff.2⟩, hMS.2⟩
  · intro x hx y hy
    simp only [List.head?_cons, Option.mem_def, Option.some.injEq] at hy
    subst hy
    intro hff
    exact hb x hx mid (by simp) ⟨hff.1, by rw [← h2]; exact hff.2⟩

theorem no_adj_replace_nonfree (P S : List Block) (mid mid' : Block)
    (h : no_adjacent_free (P ++ mid :: S)) (h2 : ¬ mid'.hdr.status = .Free) :
    no_adjacent_free (P ++ mid' :: S) := by
  unfold no_adjacent_free at *
  rw [List.chain'_append] at h ⊢
  obtain ⟨hP, hMS, hb⟩ := h
  refine ⟨hP, ?_, ?_⟩
  · rcases S with _ | ⟨c, S'⟩
    · simp
    · rw [List.chain'_cons] at hMS ⊢
      exact ⟨fun hff => h2 hff.1, hMS.2⟩
  · intro x hx y hy
    simp only [List.head?_cons, Option.mem_def, Option.some.injEq] at hy
    subst hy
    intro hff
    exact h2 hff.2

theorem no_adj_parts (P S : List Block) (mid : Block)
    (h : no_adjacent_free (P ++ mid :: S)) :
    List.Chain' (fun b c => ¬(b.hdr.status = .Free ∧ c.hdr.status = .Free)) P ∧
    List.Chain' (fun b c => ¬(b.hdr.status = .Free ∧ c.hdr.status = .Free)) S ∧
    (∀ x, P.getLast? = some x → ¬(x.hdr.status = .Free ∧ mid.hdr.status = .Free)) ∧
    (∀ y, S.head? = some y → ¬(mid.hdr.status = .Free ∧ y.hdr.status = .Free)) := by
  unfold no_adjacent_free at h
  rw [List.chain'_append] at h
  obtain ⟨hP, hMS, hb⟩ := h
  have hMS2 := hMS
  rw [List.chain'_cons'] at hMS2
  refine ⟨hP, hMS2.2, ?_, ?_⟩
  · intro x hx
    exact hb x hx mid (by simp)
  · intro y hy
    exact hMS2.1 y hy

theorem Inv.with_stats {s : EarlyAllocator} (hInv : Inv s) (st' : AllocStats)
    (hu : st'.used_size = s.stats.used_size)
    (ha : st'.alloc_count = s.stats.alloc_count)
    (hf : st'.free_count = s.stats.free_count)
    (hs : st'.free_size = s.stats.free_size) :
    Inv { s with stats := st' } := by
  refine ⟨hInv.tiles_inv, hInv.valid_inv, hInv.fl_inv, hInv.adj_inv, ?_, ?_, ?_,
    hInv.end_lt, ?_, ?_⟩
  · show st'.used_size = alloc_bytes s.blocks
    rw [hu]
    exact hInv.used_inv
  · show st'.alloc_count = num_alloc s.blocks
    rw [ha]
    exact hInv.ac_inv
  · show st'.free_count = num_free s.blocks
    rw [hf]
    exact hInv.fc_inv
  · show st'.free_size < USIZE
    rw [hs]
    exact hInv.fs_lt
  · show ((st'.free_size + 2 * alloc_bytes s.blocks
      + HEADER_SIZE * num_alloc s.blocks : Nat) : ZMod USIZE) = _
    rw [hs]
    exact hInv.sum_inv

theorem find_free_block_mem :
    ∀ (blocks : List Block) (size align : Nat) (fl : List Nat) (b : Block) (u : Nat),
      find_free_block blocks size align fl = some (b, u) →
      b.addr ∈ fl ∧ lookupBlock blocks b.addr = some b.hdr ∧
      u = calculate_aligned_addr b.addr align ∧
      u - b.addr + size ≤ b.hdr.size := by
  intro blocks size align fl
  induction fl with
  | nil => intro b u hsome; simp [find_free_block] at hsome
  | cons x xs ih =>
    intro b u hsome
    rw [find_free_block] at hsome
    cases hlk : lookupBlock blocks x with
    | none =>
      rw [hlk] at hsome
      obtain ⟨h1, h2, h3, h4⟩ := ih b u hsome
      exact ⟨List.mem_cons_of_mem _ h1, h2, h3, h4⟩
    | some hh =>
      rw [hlk] at hsome
      by_cases hfit : calculate_aligned_addr x align - x + size ≤ hh.size
      · simp only [hfit, if_true] at hsome
        obtain ⟨hb, hu⟩ := Prod.mk.injEq .. ▸ (Option.some.injEq .. ▸ hsome)
        subst hb
        subst hu
        exact ⟨by simp, hlk, rfl, hfit⟩
      · simp only [hfit, if_false] at hsome
        obtain ⟨h1, h2, h3, h4⟩ := ih b u hsome
        exact ⟨List.mem_cons_of_mem _ h1, h2, h3, h4⟩

theorem mem_decomp_addr_eq (P S : List Block) (hs he a : Nat) (hh : BlockHeader)
    (ht : tiles hs he (P ++ ⟨a, hh⟩ :: S)) (c : Block) (hc : c ∈ P ++ ⟨a, hh⟩ :: S)
    (hca : c.addr = a) : c = ⟨a, hh⟩ := by
  obtain ⟨m, htP, htS⟩ := (tiles_append P _ hs he).mp ht
  have hma : a = m := htS.1
  rcases List.mem_append.mp hc with hcp | hcs
  · have hb := tiles_mem_bounds P _ _ htP c hcp
    have h3 := total_size_ge c.hdr
    have h4 : HEADER_SIZE = 48 := rfl
    omega
  · rcases List.mem_cons.mp hcs with rfl | hcs2
    · rfl
    · obtain ⟨hb1, hb2⟩ := tiles_mem_bounds S _ _ htS.2 c hcs2
      have h3 : HEADER_SIZE ≤ (⟨a, hh⟩ : Block).hdr.total_size := total_size_ge _
      have h4 : HEADER_SIZE = 48 := rfl
      omega

theorem decomp_facts (hs he : Nat) (P S : List Block) (a : Nat) (hh : BlockHeader)
    (ht : tiles hs he (P ++ ⟨a, hh⟩ :: S)) :
    tiles hs a P ∧ tiles (a + hh.total_size) he S ∧
    (∀ c ∈ P, c.addr + c.hdr.total_size ≤ a) ∧
    (∀ c ∈ S, a + hh.total_size ≤ c.addr) ∧
    (∀ y ∈ free_addrs P, y + HEADER_SIZE ≤ a) ∧
    (∀ y ∈ free_addrs S, a + hh.total_size ≤ y) := by
  obtain ⟨m, htP, htS⟩ := (tiles_append P _ hs he).mp ht
  have hma : a = m := htS.1
  subst hma
  have htS2 : tiles (a + hh.total_size) he S := htS.2
  refine ⟨htP, htS2, ?_, ?_, ?_, ?_⟩
  · intro c hc
    exact (tiles_mem_bounds P _ _ htP c hc).2
  · intro c hc
    exact (tiles_mem_bounds S _ _ htS2 c hc).1
  · intro y hy
    obtain ⟨c, hc, rfl, hcf⟩ := (mem_free_addrs P y).mp hy
    have h1 := (tiles_mem_bounds P _ _ htP c hc).2
    have h2 := total_size_ge c.hdr
    omega
  · intro y hy
    exact free_addrs_lower S _ _ htS2 y hy

theorem free_addrs_mid (P S : List Block) (mid : Block) :
    free_addrs (P ++ mid :: S)
      = free_addrs P ++ (if mid.hdr.status = .Free then mid.addr :: free_addrs S
                         else free_addrs S) := by
  rw [free_addrs_append]
  rfl

theorem alloc_bytes_mid (P S : List Block) (mid : Block) :
    alloc_bytes (P ++ mid :: S)
      = alloc_bytes P + ((if mid.hdr.status = .Allocated then mid.hdr.size else 0)
          + alloc_bytes S) := by
  rw [alloc_bytes_append]
  rfl

theorem num_alloc_mid (P S : List Block) (mid : Block) :
    num_alloc (P ++ mid :: S)
      = num_alloc P + ((if mid.hdr.status = .Allocated then 1 else 0) + num_alloc S) := by
  rw [num_alloc_append]
  rfl

theorem num_free_mid (P S : List Block) (mid : Block) :
    num_free (P ++ mid :: S)
      = num_free P + ((if mid.hdr.status = .Free then 1 else 0) + num_free S) := by
  rw [num_free_append]
  rfl

/-- A successful, non-overflowing init establishes the invariant. -/
theorem new_Inv (start size clock : Nat) (s : EarlyAllocator)
    (hof : start + size < USIZE)
    (h : EarlyAllocator.new start size clock = .ok s) : Inv s := by
  unfold EarlyAllocator.new at h
  by_cases hc : (decide (start = 0) || decide (size < min_heap_size)) = true
  · rw [if_pos hc] at h
    cases h
  · rw [if_neg hc] at h
    injection h with h
    subst h
    simp only [Bool.or_eq_true, decide_eq_true_eq, not_or] at hc
    have hsize : min_heap_size ≤ size := Nat.not_lt.mp hc.2
    have hm : min_heap_size = 128 := rfl
    have hhd : HEADER_SIZE = 48 := rfl
    have hend : wadd start size = start + size := Nat.mod_eq_of_lt hof
    refine ⟨?_, ?_, ?_, ?_, ?_, ?_, ?_, ?_, ?_, ?_⟩
    · show tiles start (wadd start size) [⟨start, BlockHeader.new (size - HEADER_SIZE) .Free clock⟩]
      refine ⟨rfl, ?_⟩
      show start + ((size - HEADER_SIZE) + HEADER_SIZE) = wadd start size
      rw [hend]
      omega
    · intro b hb
      rcases List.mem_cons.mp hb with rfl | hb2
      · exact validate_new _ _ _ (by omega)
      · cases hb2
    · show [start] = free_addrs [⟨start, BlockHeader.new (size - HEADER_SIZE) .Free clock⟩]
      rfl
    · show no_adjacent_free [_]
      simp [no_adjacent_free]
    · rfl
    · rfl
    · rfl
    · show wadd start size < USIZE
      rw [hend]
      exact hof
    · show size < USIZE
      omega
    · show ((size + 2 * alloc_bytes _ + HEADER_SIZE * num_alloc _ : Nat) : ZMod USIZE)
        = ((wadd start size - start : Nat) : ZMod USIZE)
      rw [hend]
      have h1 : alloc_bytes [(⟨start, BlockHeader.new (size - HEADER_SIZE) .Free clock⟩ : Block)] = 0 := rfl
      have h2 : num_alloc [(⟨start, BlockHeader.new (size - HEADER_SIZE) .Free clock⟩ : Block)] = 0 := rfl
      rw [h1, h2]
      have h3 : start + size - start = size := by omega
      rw [h3]
      norm_num

/-- freeze preserves the invariant. -/
theorem freeze_preserves (s : EarlyAllocator) (hInv : Inv s) : Inv s.freeze :=
  ⟨hInv.tiles_inv, hInv.valid_inv, hInv.fl_inv, hInv.adj_inv, hInv.used_inv,
   hInv.ac_inv, hInv.fc_inv, hInv.end_lt, hInv.fs_lt, hInv.sum_inv⟩

/-- set_purpose preserves the invariant (it only rewrites purpose and
checksum of one Allocated header). -/
theorem set_purpose_preserves (s : EarlyAllocator) (ptr : Nat) (p : AllocPurpose)
    (hInv : Inv s) : Inv (s.set_purpose ptr p).1 := by
  unfold EarlyAllocator.set_purpose
  cases hlk : lookupBlock s.blocks (wsub ptr HEADER_SIZE) with
  | none =>
    simp only [hlk]
    exact hInv
  | some h =>
    simp only [hlk]
    by_cases hv : h.validate = true
    · by_cases hstat : h.status = .Allocated
      · rw [if_neg (by simp [hv]), if_neg (fun hne => hne hstat)]
        obtain ⟨P, S, hbs, hP⟩ := lookup_eq_some_decomp _ _ _ hlk
        set ha := wsub ptr HEADER_SIZE with hha
        set h2 := BlockHeader.update_checksum { h with purpose := p } with hh2
        have hset : set_hdr_at s.blocks ha h2 = P ++ ⟨ha, h2⟩ :: S := by
          rw [hbs]
          exact set_hdr_at_append P S ha h h2 hP
        have hts : tiles s.heap_start s.heap_end (P ++ ⟨ha, h⟩ :: S) := hbs ▸ hInv.tiles_inv
        obtain ⟨htP, htS, _, _, _, _⟩ := decomp_facts _ _ _ _ _ _ hts
        have hst2 : h2.status = h.status := rfl
        have hsz2 : h2.size = h.size := rfl
        have htot2 : h2.total_size = h.total_size := rfl
        refine ⟨?_, ?_, ?_, ?_, ?_, ?_, ?_, hInv.end_lt, hInv.fs_lt, ?_⟩
        · show tiles s.heap_start s.heap_end (set_hdr_at s.blocks ha h2)
          rw [hset]
          exact tiles_reassemble P S _ ha _ ⟨ha, h2⟩ htP rfl (htot2 ▸ htS)
        · show ∀ b ∈ set_hdr_at s.blocks ha h2, b.hdr.validate = true
          rw [hset]
          intro b hb
          rcases List.mem_append.mp hb with hb1 | hb1
          · exact hInv.valid_inv b (hbs ▸ List.mem_append_left _ hb1)
          · rcases List.mem_cons.mp hb1 with rfl | hb2
            · show h2.validate = true
              rw [hh2]
              obtain ⟨hmg, hsz, _⟩ := (validate_eq_true_iff h).mp hv
              exact validate_update_checksum _ hmg hsz
            · exact hInv.valid_inv b (hbs ▸ List.mem_append_right _ (List.mem_cons_of_mem _ hb2))
        · show s.free_list = free_addrs (set_hdr_at s.blocks ha h2)
          rw [hset, free_addrs_mid]
          have h3 := hInv.fl_inv
          rw [hbs, free_addrs_mid] at h3
          simpa [hst2] using h3
        · show no_adjacent_free (set_hdr_at s.blocks ha h2)
          rw [hset]
          exact no_adj_mid_status P S _ _ (hbs ▸ hInv.adj_inv) hst2
        · show s.stats.used_size = alloc_bytes (set_hdr_at s.blocks ha h2)
          rw [hset, alloc_bytes_mid]
          have h3 := hInv.used_inv
          rw [hbs, alloc_bytes_mid] at h3
          simpa [hst2, hsz2] using h3
        · show s.stats.alloc_count = num_alloc (set_hdr_at s.blocks ha h2)
          rw [hset, num_alloc_mid]
          have h3 := hInv.ac_inv
          rw [hbs, num_alloc_mid] at h3
          simpa [hst2] using h3
        · show s.stats.free_count = num_free (set_hdr_at s.blocks ha h2)
          rw [hset, num_free_mid]
          have h3 := hInv.fc_inv
          rw [hbs, num_free_mid] at h3
          simpa [hst2] using h3
        · show ((s.stats.free_size + 2 * alloc_bytes (set_hdr_at s.blocks ha h2)
            + HEADER_SIZE * num_alloc (set_hdr_at s.blocks ha h2) : Nat) : ZMod USIZE)
            = ((s.heap_end - s.heap_start : Nat) : ZMod USIZE)
          rw [hset, alloc_bytes_mid, num_alloc_mid]
          have h3 := hInv.sum_inv
          rw [hbs, alloc_bytes_mid, num_alloc_mid] at h3
          simpa [hst2, hsz2] using h3
      · rw [if_neg (by simp [hv]), if_pos (fun heq => hstat heq)]
        exact hInv
    · have hv2 : h.validate = false := by
        cases hh : h.validate
        · rfl
        · exact absurd hh hv
      rw [if_pos (by simp [hv2])]
      exact hInv

/-- alloc_aligned preserves the invariant. -/
theorem alloc_aligned_preserves (s : EarlyAllocator) (size align : Nat)
    (hInv : Inv s) : Inv (s.alloc_aligned size align).1 := by
  unfold EarlyAllocator.alloc_aligned
  by_cases hfz : s.frozen = true
  · rw [if_pos hfz]
    exact hInv.with_stats _ rfl rfl rfl rfl
  rw [if_neg hfz]
  by_cases hpar : (decide (size = 0) || !is_power_of_two align) = true
  · rw [if_pos hpar]
    exact hInv.with_stats _ rfl rfl rfl rfl
  rw [if_neg hpar]
  have hpow : is_power_of_two align = true := by
    cases hpb : is_power_of_two align
    · exact absurd (by simp [hpb]) hpar
    · rfl
  have hal : 1 ≤ align := is_power_of_two_pos _ hpow
  cases hfind : find_free_block s.blocks (max size FREE_NODE_SIZE) align s.free_list with
  | none =>
    simp only [hfind]
    exact hInv.with_stats _ rfl rfl rfl rfl
  | some bu =>
    obtain ⟨b, u⟩ := bu
    simp only [hfind]
    obtain ⟨hmem, hlook, hueq, hfit⟩ := find_free_block_mem _ _ _ _ _ _ hfind
    obtain ⟨P, S, hbs, hP⟩ := lookup_eq_some_decomp _ _ _ hlook
    have hts : tiles s.heap_start s.heap_end (P ++ ⟨b.addr, b.hdr⟩ :: S) :=
      hbs ▸ hInv.tiles_inv
    obtain ⟨htP, htS, hPbnd, hSbnd, hfP, hfS⟩ := decomp_facts _ _ _ _ _ _ hts
    have hfree : b.hdr.status = .Free := by
      have hmem2 : b.addr ∈ free_addrs s.blocks := hInv.fl_inv ▸ hmem
      obtain ⟨c, hc, hca, hcf⟩ := (mem_free_addrs _ _).mp hmem2
      have hceq : c = ⟨b.addr, b.hdr⟩ := mem_decomp_addr_eq P S _ _ _ _ hts c (hbs ▸ hc) hca
      rw [hceq] at hcf
      exact hcf
    have hu_ge : b.addr + HEADER_SIZE ≤ u := hueq ▸ calculate_aligned_addr_ge b.addr align hal
    have hmagic : b.hdr.magic = BLOCK_MAGIC := by
      have hv := hInv.valid_inv ⟨b.addr, b.hdr⟩ (hbs ▸ List.mem_append_right _ (by simp))
      exact ((validate_eq_true_iff _).mp hv).1
    have hfl : s.free_list = free_addrs P ++ b.addr :: free_addrs S := by
      rw [hInv.fl_inv, hbs, free_addrs_mid, if_pos hfree]
    have hhd48 : HEADER_SIZE = 48 := rfl
    have hfn16 : FREE_NODE_SIZE = 16 := rfl
    have hmb64 : min_block_size = 64 := rfl
    have hanotP : b.addr ∉ free_addrs P := by
      intro hya
      have := hfP _ hya
      omega
    have herase : s.free_list.erase b.addr = free_addrs P ++ free_addrs S := by
      rw [hfl, List.erase_append_right _ hanotP, List.erase_cons_head]
    have hnumfree : num_free s.blocks = num_free P + (1 + num_free S) := by
      rw [hbs, num_free_mid, if_pos hfree]
    have hnumalloc : num_alloc s.blocks = num_alloc P + (0 + num_alloc S) := by
      rw [hbs, num_alloc_mid, if_neg (by rw [hfree]; intro hcon; cases hcon)]
    have hbytes : alloc_bytes s.blocks = alloc_bytes P + (0 + alloc_bytes S) := by
      rw [hbs, alloc_bytes_mid, if_neg (by rw [hfree]; intro hcon; cases hcon)]
    have hflt : s.stats.free_count < USIZE := by
      rw [hInv.fc_inv]
      have hlen := tiles_length_lt_USIZE s.blocks _ _ hInv.tiles_inv hInv.end_lt
      have hnl := num_free_le_length s.blocks
      omega
    have hfge1 : 1 ≤ s.stats.free_count := by
      rw [hInv.fc_inv, hnumfree]
      omega
    have hwfc : wsub s.stats.free_count 1 = s.stats.free_count - 1 :=
      wsub_small _ _ hfge1 hflt
    have hadjparts := no_adj_parts P S _ (hbs ▸ hInv.adj_inv)
    by_cases hsplit : (u - b.addr + max size FREE_NODE_SIZE) + min_block_size ≤ b.hdr.size
    · rw [if_pos hsplit]
      set asize := max size FREE_NODE_SIZE with hasize
      set required := u - b.addr + asize with hrequired
      set B := b.hdr.size with hB
      have hreq48 : HEADER_SIZE + asize ≤ required := by
        rw [hrequired]
        omega
      have hasz16 : FREE_NODE_SIZE ≤ asize := le_max_right _ _
      have hreqB : required + min_block_size ≤ B := hsplit
      set hdr1 := BlockHeader.update_checksum
        { b.hdr with size := required - HEADER_SIZE, status := .Allocated,
                     alloc_id := s.next_alloc_id, timestamp := s.clock } with hhdr1
      set new_hdr := BlockHeader.new (B - required) .Free (s.clock + 1) with hnewhdr
      have hh1sz : hdr1.size = required - HEADER_SIZE := rfl
      have hh1st : hdr1.status = .Allocated := rfl
      have hh1tot : hdr1.total_size = required := by
        show (required - HEADER_SIZE) + HEADER_SIZE = required
        omega
      have hnhsz : new_hdr.size = B - required := rfl
      have hnhst : new_hdr.status = .Free := rfl
      have hnhtot : new_hdr.total_size = (B - required) + HEADER_SIZE := rfl
      have hsplitEq : split_at_addr s.blocks b.addr hdr1 (b.addr + required) new_hdr
          = P ++ ⟨b.addr, hdr1⟩ :: ⟨b.addr + required, new_hdr⟩ :: S := by
        rw [hbs]
        exact split_at_addr_append P S b.addr b.hdr hdr1 new_hdr (b.addr + required) hP
      have hinsert : insert_into_free_list (s.free_list.erase b.addr) (b.addr + required)
          = free_addrs P ++ (b.addr + required) :: free_addrs S := by
        rw [herase]
        refine insert_into_free_list_spec _ _ _ ?_ ?_
        · intro y hy
          have := hfP y hy
          omega
        · intro y hy
          have h1 := hfS y hy
          have h2 : b.hdr.total_size = B + HEADER_SIZE := rfl
          omega
      refine ⟨?_, ?_, ?_, ?_, ?_, ?_, ?_, hInv.end_lt, ?_, ?_⟩
      · show tiles s.heap_start s.heap_end
          (split_at_addr s.blocks b.addr hdr1 (b.addr + required) new_hdr)
        rw [hsplitEq]
        refine tiles_reassemble P _ _ b.addr _ ⟨b.addr, hdr1⟩ htP rfl ?_
        have hfst : (⟨b.addr + required, new_hdr⟩ : Block).addr
            = b.addr + (⟨b.addr, hdr1⟩ : Block).hdr.total_size := by
          show b.addr + required = b.addr + hdr1.total_size
          rw [hh1tot]
        refine ⟨hfst, ?_⟩
        have htotB : b.hdr.total_size = B + HEADER_SIZE := rfl
        have harith : b.addr + hdr1.total_size + new_hdr.total_size
            = b.addr + b.hdr.total_size := by
          rw [hh1tot, hnhtot, htotB]
          omega
        show tiles (b.addr + hdr1.total_size + new_hdr.total_size) s.heap_end S
        rw [harith]
        exact htS
      · show ∀ c ∈ split_at_addr s.blocks b.addr hdr1 (b.addr + required) new_hdr,
          c.hdr.validate = true
        rw [hsplitEq]
        intro c hc
        rcases List.mem_append.mp hc with hc1 | hc1
        · exact hInv.valid_inv c (hbs ▸ List.mem_append_left _ hc1)
        · rcases List.mem_cons.mp hc1 with rfl | hc2
          · refine validate_update_checksum _ hmagic ?_
            show required - HEADER_SIZE ≠ 0
            omega
          · rcases List.mem_cons.mp hc2 with rfl | hc3
            · exact validate_new _ _ _ (by omega)
            · exact hInv.valid_inv c
                (hbs ▸ List.mem_append_right _ (List.mem_cons_of_mem _ hc3))
      · show insert_into_free_list (s.free_list.erase b.addr) (b.addr + required)
          = free_addrs (split_at_addr s.blocks b.addr hdr1 (b.addr + required) new_hdr)
        rw [hinsert, hsplitEq, free_addrs_mid, if_neg (by rw [hh1st]; intro hcon; cases hcon)]
        show _ = free_addrs P ++ free_addrs (⟨b.addr + required, new_hdr⟩ :: S)
        have : free_addrs (⟨b.addr + required, new_hdr⟩ :: S)
            = (b.addr + required) :: free_addrs S := by
          show (if new_hdr.status = .Free then _ else _) = _
          rw [if_pos hnhst]
        rw [this]
      · show no_adjacent_free (split_at_addr s.blocks b.addr hdr1 (b.addr + required) new_hdr)
        rw [hsplitEq]
        unfold no_adjacent_free
        rw [List.chain'_append]
        obtain ⟨hPc, hSc, _, hheadS⟩ := hadjparts
        have hno : ¬ ((⟨b.addr, hdr1⟩ : Block).hdr.status = .Free) := by
          show ¬ (hdr1.status = .Free)
          rw [hh1st]
          intro hcon
          cases hcon
        refine ⟨hPc, ?_, ?_⟩
        · rw [List.chain'_cons]
          refine ⟨fun hff => hno hff.1, ?_⟩
          rcases hS : S with _ | ⟨c, S2⟩
          · simp
          · rw [List.chain'_cons]
            refine ⟨?_, hS ▸ hSc⟩
            rintro ⟨_, hcf⟩
            exact hheadS c (by rw [hS]; rfl) ⟨hfree, hcf⟩
        · intro x hx y hy
          simp only [List.head?_cons, Option.mem_def, Option.some.injEq] at hy
          subst hy
          rintro ⟨_, hcon⟩
          exact hno hcon
      · show s.stats.used_size + hdr1.size = alloc_bytes _
        rw [hsplitEq, alloc_bytes_mid, if_pos hh1st]
        have h1 : alloc_bytes (⟨b.addr + required, new_hdr⟩ :: S)
            = alloc_bytes S := by
          show (if new_hdr.status = .Allocated then _ else 0) + _ = _
          rw [if_neg (by rw [hnhst]; intro hcon; cases hcon)]
          omega
        rw [h1, hInv.used_inv, hbytes, hh1sz]
        omega
      · show s.stats.alloc_count + 1 = num_alloc _
        rw [hsplitEq, num_alloc_mid, if_pos hh1st]
        have h1 : num_alloc (⟨b.addr + required, new_hdr⟩ :: S) = num_alloc S := by
          show (if new_hdr.status = .Allocated then 1 else 0) + _ = _
          rw [if_neg (by rw [hnhst]; intro hcon; cases hcon)]
          omega
        rw [h1, hInv.ac_inv, hnumalloc]
        omega
      · show wsub s.stats.free_count 1 + 1 = num_free _
        rw [hsplitEq, num_free_mid, if_neg (by rw [hh1st]; intro hcon; cases hcon)]
        have h1 : num_free (⟨b.addr + required, new_hdr⟩ :: S) = 1 + num_free S := by
          show (if new_hdr.status = .Free then 1 else 0) + _ = _
          rw [if_pos hnhst]
        rw [h1, hwfc, hInv.fc_inv, hnumfree]
        omega
      · exact wsub_lt _ _
      · show ((wsub (wadd (wsub s.stats.free_size (B + HEADER_SIZE)) ((B - required) + HEADER_SIZE))
            (required - HEADER_SIZE)
            + 2 * alloc_bytes _ + HEADER_SIZE * num_alloc _ : Nat) : ZMod USIZE) = _
        rw [hsplitEq, alloc_bytes_mid, if_pos hh1st, num_alloc_mid, if_pos hh1st]
        have h1 : alloc_bytes (⟨b.addr + required, new_hdr⟩ :: S) = alloc_bytes S := by
          show (if new_hdr.status = .Allocated then _ else 0) + _ = _
          rw [if_neg (by rw [hnhst]; intro hcon; cases hcon)]
          omega
        have h2 : num_alloc (⟨b.addr + required, new_hdr⟩ :: S) = num_alloc S := by
          show (if new_hdr.status = .Allocated then 1 else 0) + _ = _
          rw [if_neg (by rw [hnhst]; intro hcon; cases hcon)]
          omega
        rw [h1, h2, hh1sz]
        have hz := hInv.sum_inv
        rw [hbytes, hnumalloc] at hz
        have hle1 : required ≤ B := by omega
        have hle2 : HEADER_SIZE ≤ required := by omega
        push_cast
        rw [wsub_cast, wadd_cast, wsub_cast]
        push_cast
        rw [Nat.cast_sub hle1, Nat.cast_sub hle2]
        push_cast at hz
        linear_combination hz
    · rw [if_neg hsplit]
      set asize := max size FREE_NODE_SIZE with hasize
      set hdr1 := BlockHeader.update_checksum
        { b.hdr with status := .Allocated, alloc_id := s.next_alloc_id,
                     timestamp := s.clock } with hhdr1
      have hh1sz : hdr1.size = b.hdr.size := rfl
      have hh1st : hdr1.status = .Allocated := rfl
      have hh1tot : hdr1.total_size = b.hdr.total_size := rfl
      have hsetEq : set_hdr_at s.blocks b.addr hdr1 = P ++ ⟨b.addr, hdr1⟩ :: S := by
        rw [hbs]
        exact set_hdr_at_append P S b.addr b.hdr hdr1 hP
      refine ⟨?_, ?_, ?_, ?_, ?_, ?_, ?_, hInv.end_lt, ?_, ?_⟩
      · show tiles s.heap_start s.heap_end (set_hdr_at s.blocks b.addr hdr1)
        rw [hsetEq]
        exact tiles_reassemble P S _ b.addr _ _ htP rfl (hh1tot ▸ htS)
      · show ∀ c ∈ set_hdr_at s.blocks b.addr hdr1, c.hdr.validate = true
        rw [hsetEq]
        intro c hc
        rcases List.mem_append.mp hc with hc1 | hc1
        · exact hInv.valid_inv c (hbs ▸ List.mem_append_left _ hc1)
        · rcases List.mem_cons.mp hc1 with rfl | hc2
          · refine validate_update_checksum _ hmagic ?_
            show b.hdr.size ≠ 0
            have h16 : FREE_NODE_SIZE ≤ asize := le_max_right _ _
            omega
          · exact hInv.valid_inv c
              (hbs ▸ List.mem_append_right _ (List.mem_cons_of_mem _ hc2))
      · show s.free_list.erase b.addr = free_addrs (set_hdr_at s.blocks b.addr hdr1)
        rw [herase, hsetEq, free_addrs_mid, if_neg (by rw [hh1st]; intro hcon; cases hcon)]
      · show no_adjacent_free (set_hdr_at s.blocks b.addr hdr1)
        rw [hsetEq]
        exact no_adj_replace_nonfree P S _ _ (hbs ▸ hInv.adj_inv)
          (by rw [hh1st]; intro hcon; cases hcon)
      · show s.stats.used_size + hdr1.size = alloc_bytes _
        rw [hsetEq, alloc_bytes_mid, if_pos hh1st, hInv.used_inv, hbytes, hh1sz]
        omega
      · show s.stats.alloc_count + 1 = num_alloc _
        rw [hsetEq, num_alloc_mid, if_pos hh1st, hInv.ac_inv, hnumalloc]
        omega
      · show wsub s.stats.free_count 1 = num_free _
        rw [hsetEq, num_free_mid, if_neg (by rw [hh1st]; intro hcon; cases hcon),
          hwfc, hInv.fc_inv, hnumfree]
        omega
      · exact wsub_lt _ _
      · show ((wsub (wsub s.stats.free_size (b.hdr.size + HEADER_SIZE)) hdr1.size
            + 2 * alloc_bytes _ + HEADER_SIZE * num_alloc _ : Nat) : ZMod USIZE) = _
        rw [hsetEq, alloc_bytes_mid, if_pos hh1st, num_alloc_mid, if_pos hh1st, hh1sz]
        have hz := hInv.sum_inv
        rw [hbytes, hnumalloc] at hz
        push_cast
        rw [wsub_cast, wsub_cast]
        push_cast
        push_cast at hz
        linear_combination hz

theorem mem_of_getLast?_eq {α : Type} (l : List α) (a : α) (h : l.getLast? = some a) :
    a ∈ l := by
  cases l with
  | nil => cases h
  | cons x t =>
    have hne : x :: t ≠ [] := by simp
    rw [List.getLast?_eq_getLast_of_ne_nil hne] at h
    injection h with h
    exact h ▸ List.getLast_mem hne

theorem no_free_of_free_addrs_nil (P : List Block) (h : free_addrs P = []) :
    ∀ c ∈ P, ¬ c.hdr.status = .Free := by
  intro c hc hcf
  have h2 : c.addr ∈ free_addrs P := (mem_free_addrs P c.addr).mpr ⟨c, hc, rfl, hcf⟩
  rw [h] at h2
  cases h2

theorem no_adj_assemble (P S : List Block) (mid : Block)
    (hPc : List.Chain' (fun b c => ¬(b.hdr.status = .Free ∧ c.hdr.status = .Free)) P)
    (hSc : List.Chain' (fun b c => ¬(b.hdr.status = .Free ∧ c.hdr.status = .Free)) S)
    (hlast : ∀ x, P.getLast? = some x → ¬(x.hdr.status = .Free ∧ mid.hdr.status = .Free))
    (hhead : ∀ y, S.head? = some y → ¬(mid.hdr.status = .Free ∧ y.hdr.status = .Free)) :
    no_adjacent_free (P ++ mid :: S) := by
  unfold no_adjacent_free
  rw [List.chain'_append]
  refine ⟨hPc, ?_, ?_⟩
  · rw [List.chain'_cons']
    exact ⟨fun y hy => hhead y (Option.mem_def.mp hy), hSc⟩
  · intro x hx y hy
    simp only [List.head?_cons, Option.mem_def, Option.some.injEq] at hy
    subst hy
    exact hlast x (Option.mem_def.mp hx)

/-- The prev-merge half of coalesce, on the mid-deallocation
configuration: the freed block `ha` is absorbed by its free-list
predecessor exactly when that predecessor is physically adjacent, and
the resulting chain, free list and counters stand in the stated
relations. -/
theorem coalesce_prev_spec
    (hs he : Nat) (P S : List Block) (ha : Nat) (hF : BlockHeader) (st : AllocStats)
    (htiles : tiles hs he (P ++ ⟨ha, hF⟩ :: S))
    (hvalid : ∀ b ∈ P ++ ⟨ha, hF⟩ :: S, b.hdr.validate = true)
    (hFfree : hF.status = .Free)
    (hPc : List.Chain' (fun b c => ¬(b.hdr.status = .Free ∧ c.hdr.status = .Free)) P)
    (hSc : List.Chain' (fun b c => ¬(b.hdr.status = .Free ∧ c.hdr.status = .Free)) S)
    (hheadS : ∀ y, S.head? = some y → ¬ y.hdr.status = .Free)
    (hend : he < USIZE)
    (hstf : st.free_count = num_free (P ++ ⟨ha, hF⟩ :: S)) :
    ∃ B2 st2, coalesce_prev (P ++ ⟨ha, hF⟩ :: S) (free_addrs P ++ ha :: free_addrs S) st ha
        = (B2, free_addrs B2, st2) ∧
      tiles hs he B2 ∧
      (∀ b ∈ B2, b.hdr.validate = true) ∧
      no_adjacent_free B2 ∧
      alloc_bytes B2 = alloc_bytes (P ++ ⟨ha, hF⟩ :: S) ∧
      num_alloc B2 = num_alloc (P ++ ⟨ha, hF⟩ :: S) ∧
      st2.free_count = num_free B2 ∧
      st2.used_size = st.used_size ∧
      st2.alloc_count = st.alloc_count ∧
      st2.free_size = st.free_size := by
  obtain ⟨htP, htS, hPbnd, hSbnd, hfP, hfS⟩ := decomp_facts _ _ _ _ _ _ htiles
  have hhd48 : HEADER_SIZE = 48 := rfl
  have hanotP : ha ∉ free_addrs P := fun hy => by have := hfP _ hy; omega
  have hanotS : ha ∉ free_addrs S := fun hy => by
    have h1 := hfS _ hy
    have h2 := total_size_ge hF
    omega
  have hflEq : free_addrs P ++ ha :: free_addrs S = free_addrs (P ++ ⟨ha, hF⟩ :: S) := by
    rw [free_addrs_mid, if_pos (show (⟨ha, hF⟩ : Block).hdr.status = .Free from hFfree)]
  have hFmid : num_free (P ++ ⟨ha, hF⟩ :: S)
      = num_free P + (1 + num_free S) := by
    rw [num_free_mid, if_pos (show (⟨ha, hF⟩ : Block).hdr.status = .Free from hFfree)]
  unfold coalesce_prev
  rw [elem_before_append _ _ _ hanotP hanotS]
  cases hLast : (free_addrs P).getLast? with
  | none =>
    have hfPnil : free_addrs P = [] := List.getLast?_eq_none_iff.mp hLast
    refine ⟨P ++ ⟨ha, hF⟩ :: S, st, by rw [hflEq], htiles, hvalid, ?_, rfl, rfl,
      by rw [hstf], rfl, rfl, rfl⟩
    refine no_adj_assemble P S _ hPc hSc ?_ (fun y hy hff => hheadS y hy hff.2)
    intro x hx hff
    exact no_free_of_free_addrs_nil P hfPnil x (mem_of_getLast?_eq _ _ hx) hff.1
  | some p =>
    have hpfP : p ∈ free_addrs P := mem_of_getLast?_eq _ _ hLast
    obtain ⟨L, hLP, hLaddr, hLfree⟩ := (mem_free_addrs P p).mp hpfP
    obtain ⟨P1, P2, hPdec⟩ := List.append_of_mem hLP
    have hLeta : L = (⟨p, L.hdr⟩ : Block) := by rw [← hLaddr]
    have htP' : tiles hs ha (P1 ++ L :: P2) := hPdec ▸ htP
    obtain ⟨m, htP1, htLP2⟩ := (tiles_append P1 (L :: P2) hs ha).mp htP'
    have hLm : L.addr = m := htLP2.1
    have hpm : m = p := by rw [← hLm, hLaddr]
    have htP2 : tiles (m + L.hdr.total_size) ha P2 := htLP2.2
    have hP1ne : ∀ c ∈ P1, c.addr ≠ p := by
      intro c hc
      have h1 := (tiles_mem_bounds P1 _ _ htP1 c hc).2
      have h2 := total_size_ge c.hdr
      omega
    have hblockseq : P ++ ⟨ha, hF⟩ :: S = P1 ++ ⟨p, L.hdr⟩ :: (P2 ++ ⟨ha, hF⟩ :: S) := by
      rw [hPdec, ← hLeta]
      simp [List.append_assoc]
    have hlookp : lookupBlock (P ++ ⟨ha, hF⟩ :: S) p = some L.hdr := by
      rw [hblockseq]
      exact lookup_append_some _ _ _ _ hP1ne
    have hPne : ∀ c ∈ P, c.addr ≠ ha := by
      intro c hc
      have h1 := hPbnd c hc
      have h2 := total_size_ge c.hdr
      omega
    have hlooka : lookupBlock (P ++ ⟨ha, hF⟩ :: S) ha = some hF :=
      lookup_append_some _ _ _ _ hPne
    simp only [hlookp, hlooka]
    have hLmagic : L.hdr.magic = BLOCK_MAGIC :=
      ((validate_eq_true_iff _).mp (hvalid L (List.mem_append_left _ hLP))).1
    by_cases hadj : p + L.hdr.total_size = ha
    · rw [if_pos hadj]
      have hP2nil : P2 = [] := by
        cases hP2 : P2 with
        | nil => rfl
        | cons c rest =>
          exfalso
          rw [hP2] at htP2
          obtain ⟨hc1, hc2⟩ := htP2
          have h1 := tiles_le _ _ _ hc2
          have h2 := total_size_ge c.hdr
          omega
      have hPeq : P = P1 ++ [L] := by rw [hPdec, hP2nil]
      set L2 := BlockHeader.update_checksum
        { L.hdr with size := L.hdr.size + hF.total_size } with hL2def
      have hL2sz : L2.size = L.hdr.size + hF.total_size := rfl
      have hL2st : L2.status = L.hdr.status := rfl
      have hL2tot : L2.total_size = L.hdr.total_size + hF.total_size := by
        show (L.hdr.size + hF.total_size) + HEADER_SIZE
          = (L.hdr.size + HEADER_SIZE) + hF.total_size
        omega
      have hremove : remove_at_addr (P ++ ⟨ha, hF⟩ :: S) ha = P1 ++ L :: S := by
        rw [remove_at_addr_append P S ha hF hPne, hPeq]
        simp
      have hmerge : merge_with_next (P ++ ⟨ha, hF⟩ :: S) p = P1 ++ ⟨p, L2⟩ :: S := by
        unfold merge_with_next
        rw [hlookp]
        simp only
        rw [hadj, hlooka, hremove]
        have : P1 ++ L :: S = P1 ++ ⟨p, L.hdr⟩ :: S := by rw [← hLeta]
        rw [this]
        exact set_hdr_at_append P1 S p L.hdr L2 hP1ne
      have herase2 : (free_addrs P ++ ha :: free_addrs S).erase ha
          = free_addrs P ++ free_addrs S := by
        rw [List.erase_append_right _ hanotP, List.erase_cons_head]
      have hfPeq : free_addrs P = free_addrs P1 ++ [p] := by
        rw [hPeq, free_addrs_append]
        congr 1
        show (if L.hdr.status = .Free then L.addr :: free_addrs [] else free_addrs []) = [p]
        rw [if_pos hLfree, hLaddr]
        rfl
      have hfB2 : free_addrs (P1 ++ ⟨p, L2⟩ :: S) = free_addrs P1 ++ p :: free_addrs S := by
        rw [free_addrs_mid, if_pos (show (⟨p, L2⟩ : Block).hdr.status = .Free by
          rw [show (⟨p, L2⟩ : Block).hdr.status = L2.status from rfl, hL2st]
          exact hLfree)]
      refine ⟨P1 ++ ⟨p, L2⟩ :: S,
        { st.record_merge with free_count := wsub st.free_count 1 }, ?_, ?_, ?_, ?_, ?_, ?_,
        ?_, rfl, rfl, rfl⟩
      · rw [hmerge, herase2, hfB2, hfPeq]
        simp
      · refine tiles_reassemble P1 S hs p he ⟨p, L2⟩ (hpm ▸ htP1) rfl ?_
        have harith : p + (⟨p, L2⟩ : Block).hdr.total_size = ha + hF.total_size := by
          show p + L2.total_size = ha + hF.total_size
          rw [hL2tot]
          omega
        rw [harith]
        exact htS
      · intro c hc
        rcases List.mem_append.mp hc with hc1 | hc1
        · exact hvalid c (hPdec ▸ List.mem_append_left _ (List.mem_append_left _ hc1))
        · rcases List.mem_cons.mp hc1 with rfl | hc2
          · refine validate_update_checksum _ hLmagic ?_
            have h2 := total_size_ge hF
            show L.hdr.size + hF.total_size ≠ 0
            omega
          · exact hvalid c (List.mem_append_right _ (List.mem_cons_of_mem _ hc2))
      · have hPc1 : List.Chain'
            (fun b c => ¬(b.hdr.status = .Free ∧ c.hdr.status = .Free)) (P1 ++ [L]) :=
          hPeq ▸ hPc
        rw [List.chain'_append] at hPc1
        refine no_adj_assemble P1 S _ hPc1.1 hSc ?_ ?_
        · intro x hx hff
          have h1 := hPc1.2.2 x (Option.mem_def.mpr hx) L (by simp)
          exact h1 ⟨hff.1, hLfree⟩
        · intro y hy hff
          exact hheadS y hy hff.2
      · rw [alloc_bytes_mid, if_neg (show ¬ (⟨p, L2⟩ : Block).hdr.status = .Allocated by
          rw [show (⟨p, L2⟩ : Block).hdr.status = L2.status from rfl, hL2st, hLfree]
          intro hcon
          cases hcon)]
        have h1 : alloc_bytes (P ++ ⟨ha, hF⟩ :: S)
            = alloc_bytes P + (0 + alloc_bytes S) := by
          rw [alloc_bytes_mid, if_neg (show ¬ (⟨ha, hF⟩ : Block).hdr.status = .Allocated by
            rw [show (⟨ha, hF⟩ : Block).hdr.status = hF.status from rfl, hFfree]
            intro hcon
            cases hcon)]
        rw [h1, hPeq, alloc_bytes_append]
        have h2 : alloc_bytes [L] = 0 := by
          show (if L.hdr.status = .Allocated then L.hdr.size else 0) + 0 = 0
          rw [if_neg (by rw [hLfree]; intro hcon; cases hcon)]
        rw [h2]
        omega
      · rw [num_alloc_mid, if_neg (show ¬ (⟨p, L2⟩ : Block).hdr.status = .Allocated by
          rw [show (⟨p, L2⟩ : Block).hdr.status = L2.status from rfl, hL2st, hLfree]
          intro hcon
          cases hcon)]
        have h1 : num_alloc (P ++ ⟨ha, hF⟩ :: S)
            = num_alloc P + (0 + num_alloc S) := by
          rw [num_alloc_mid, if_neg (show ¬ (⟨ha, hF⟩ : Block).hdr.status = .Allocated by
            rw [show (⟨ha, hF⟩ : Block).hdr.status = hF.status from rfl, hFfree]
            intro hcon
            cases hcon)]
        rw [h1, hPeq, num_alloc_append]
        have h2 : num_alloc [L] = 0 := by
          show (if L.hdr.status = .Allocated then 1 else 0) + 0 = 0
          rw [if_neg (by rw [hLfree]; intro hcon; cases hcon)]
        rw [h2]
        omega
      · show wsub st.free_count 1 = num_free (P1 ++ ⟨p, L2⟩ :: S)
        have hnfB2 : num_free (P1 ++ ⟨p, L2⟩ :: S)
            = num_free P1 + (1 + num_free S) := by
          rw [num_free_mid, if_pos (show (⟨p, L2⟩ : Block).hdr.status = .Free by
            rw [show (⟨p, L2⟩ : Block).hdr.status = L2.status from rfl, hL2st]
            exact hLfree)]
        have hnfP : num_free P = num_free P1 + 1 := by
          rw [hPeq, num_free_append]
          have h2 : num_free [L] = 1 := by
            show (if L.hdr.status = .Free then 1 else 0) + 0 = 1
            rw [if_pos hLfree]
          rw [h2]
        have hfcUB : st.free_count < USIZE := by
          rw [hstf]
          have hlen := tiles_length_lt_USIZE _ _ _ htiles hend
          have hnl := num_free_le_length (P ++ ⟨ha, hF⟩ :: S)
          omega
        have hge1 : 1 ≤ st.free_count := by
          rw [hstf, hFmid]
          omega
        rw [wsub_small _ _ hge1 hfcUB, hstf, hFmid, hnfB2, hnfP]
        omega
    · rw [if_neg hadj]
      have hfPdec : free_addrs P = free_addrs P1 ++ p :: free_addrs P2 := by
        rw [hPdec, free_addrs_append]
        congr 1
        show (if L.hdr.status = .Free then L.addr :: free_addrs P2 else free_addrs P2) = _
        rw [if_pos hLfree, hLaddr]
      have hfP2nil : free_addrs P2 = [] := by
        rw [hfPdec, List.getLast?_append_cons] at hLast
        cases hfp2 : free_addrs P2 with
        | nil => rfl
        | cons q rest =>
          exfalso
          rw [hfp2, List.getLast?_cons_cons] at hLast
          have hqmem : p ∈ free_addrs P2 := by
            rw [hfp2]
            exact mem_of_getLast?_eq _ _ hLast
          obtain ⟨c, hc, hca, hcf⟩ := (mem_free_addrs _ _).mp hqmem
          have hcb := (tiles_mem_bounds P2 _ _ htP2 c hc).1
          have h2 := total_size_ge L.hdr
          omega
      have hP2ne : P2 ≠ [] := by
        intro hP2nil
        apply hadj
        rw [hP2nil] at htP2
        have h1 : m + L.hdr.total_size = ha := htP2
        omega
      refine ⟨P ++ ⟨ha, hF⟩ :: S, st, by rw [hflEq], htiles, hvalid, ?_, rfl, rfl,
        by rw [hstf], rfl, rfl, rfl⟩
      refine no_adj_assemble P S _ hPc hSc ?_ (fun y hy hff => hheadS y hy hff.2)
      intro x hx hff
      have hlastP2 : P.getLast? = P2.getLast? := by
        rw [hPdec, List.getLast?_append_cons]
        cases hP2c : P2 with
        | nil => exact absurd hP2c hP2ne
        | cons c rest => rw [List.getLast?_cons_cons]
      rw [hlastP2] at hx
      exact no_free_of_free_addrs_nil P2 hfP2nil x (mem_of_getLast?_eq _ _ hx) hff.1

/-- coalesce_prev on a well-formed mid-free configuration re-establishes
the full invariant for the resulting allocator record. -/
theorem coalesce_prev_final (s : EarlyAllocator) (P S : List Block) (ha : Nat)
    (hF : BlockHeader) (st : AllocStats) (clk : Nat)
    (htiles : tiles s.heap_start s.heap_end (P ++ ⟨ha, hF⟩ :: S))
    (hvalid : ∀ b ∈ P ++ ⟨ha, hF⟩ :: S, b.hdr.validate = true)
    (hFfree : hF.status = .Free)
    (hPc : List.Chain' (fun b c => ¬(b.hdr.status = .Free ∧ c.hdr.status = .Free)) P)
    (hSc : List.Chain' (fun b c => ¬(b.hdr.status = .Free ∧ c.hdr.status = .Free)) S)
    (hheadS : ∀ y, S.head? = some y → ¬ y.hdr.status = .Free)
    (hend : s.heap_end < USIZE)
    (hstf : st.free_count = num_free (P ++ ⟨ha, hF⟩ :: S))
    (hused : st.used_size = alloc_bytes (P ++ ⟨ha, hF⟩ :: S))
    (hac : st.alloc_count = num_alloc (P ++ ⟨ha, hF⟩ :: S))
    (hfslt : st.free_size < USIZE)
    (hsum : ((st.free_size + 2 * alloc_bytes (P ++ ⟨ha, hF⟩ :: S)
               + HEADER_SIZE * num_alloc (P ++ ⟨ha, hF⟩ :: S) : Nat) : ZMod USIZE)
              = ((s.heap_end - s.heap_start : Nat) : ZMod USIZE)) :
    Inv { s with
      blocks := (coalesce_prev (P ++ ⟨ha, hF⟩ :: S)
        (free_addrs P ++ ha :: free_addrs S) st ha).1,
      free_list := (coalesce_prev (P ++ ⟨ha, hF⟩ :: S)
        (free_addrs P ++ ha :: free_addrs S) st ha).2.1,
      stats := (coalesce_prev (P ++ ⟨ha, hF⟩ :: S)
        (free_addrs P ++ ha :: free_addrs S) st ha).2.2,
      clock := clk } := by
  obtain ⟨B2, st2, hres, htl, hvl, hadj, hab, hna, hfc, hus, hacz, hfs⟩ :=
    coalesce_prev_spec s.heap_start s.heap_end P S ha hF st htiles hvalid hFfree hPc hSc
      hheadS hend hstf
  rw [hres]
  refine ⟨htl, hvl, rfl, hadj, ?_, ?_, hfc, hend, ?_, ?_⟩
  · show st2.used_size = alloc_bytes B2
    rw [hus, hused, ← hab]
  · show st2.alloc_count = num_alloc B2
    rw [hacz, hac, ← hna]
  · show st2.free_size < USIZE
    rw [hfs]
    exact hfslt
  · show ((st2.free_size + 2 * alloc_bytes B2 + HEADER_SIZE * num_alloc B2 : Nat) : ZMod USIZE)
      = ((s.heap_end - s.heap_start : Nat) : ZMod USIZE)
    rw [hfs, hab, hna]
    exact hsum

/-- dealloc preserves the invariant: the error paths leave the chain
untouched, and the success path (mark Free, insert, coalesce) restores
every invariant component. -/
theorem dealloc_preserves (s : EarlyAllocator) (ptr : Nat) (hInv : Inv s) :
    Inv (s.dealloc ptr).1 := by
  unfold EarlyAllocator.dealloc
  by_cases hfz : s.frozen = true
  · rw [if_pos hfz]
    exact hInv
  rw [if_neg hfz]
  by_cases hrange : (decide (ptr < s.heap_start) || decide (s.heap_end < ptr)) = true
  · rw [if_pos hrange]
    exact hInv
  rw [if_neg hrange]
  cases hlk : lookupBlock s.blocks (wsub ptr HEADER_SIZE) with
  | none =>
    simp only [hlk]
    exact hInv.with_stats _ rfl rfl rfl rfl
  | some h =>
    simp only [hlk]
    by_cases hval : (!h.validate) = true
    · rw [if_pos hval]
      exact hInv.with_stats _ rfl rfl rfl rfl
    rw [if_neg hval]
    have hvalT : h.validate = true := by
      cases hv : h.validate
      · rw [hv] at hval
        exact absurd rfl hval
      · rfl
    by_cases hfree0 : h.status = .Free
    · rw [if_pos hfree0]
      exact hInv.with_stats _ rfl rfl rfl rfl
    rw [if_neg hfree0]
    set ha := wsub ptr HEADER_SIZE with hha
    show Inv { s with
      blocks := (coalesce s.heap_end
        (set_hdr_at s.blocks ha
          (BlockHeader.update_checksum { h with status := .Free, timestamp := s.clock }))
        (insert_into_free_list s.free_list ha)
        { s.stats.record_dealloc h.size with
          free_size := wadd (s.stats.record_dealloc h.size).free_size (h.size + HEADER_SIZE),
          free_count := (s.stats.record_dealloc h.size).free_count + 1 } ha).1,
      free_list := (coalesce s.heap_end
        (set_hdr_at s.blocks ha
          (BlockHeader.update_checksum { h with status := .Free, timestamp := s.clock }))
        (insert_into_free_list s.free_list ha)
        { s.stats.record_dealloc h.size with
          free_size := wadd (s.stats.record_dealloc h.size).free_size (h.size + HEADER_SIZE),
          free_count := (s.stats.record_dealloc h.size).free_count + 1 } ha).2.1,
      stats := (coalesce s.heap_end
        (set_hdr_at s.blocks ha
          (BlockHeader.update_checksum { h with status := .Free, timestamp := s.clock }))
        (insert_into_free_list s.free_list ha)
        { s.stats.record_dealloc h.size with
          free_size := wadd (s.stats.record_dealloc h.size).free_size (h.size + HEADER_SIZE),
          free_count := (s.stats.record_dealloc h.size).free_count + 1 } ha).2.2,
      clock := s.clock + 1 }
    have halloc : h.status = .Allocated := by
      cases hst : h.status
      · exact absurd hst hfree0
      · rfl
    obtain ⟨P, S, hbs, hP⟩ := lookup_eq_some_decomp _ _ _ hlk
    have hts : tiles s.heap_start s.heap_end (P ++ ⟨ha, h⟩ :: S) := by
      rw [← hbs]
      exact hInv.tiles_inv
    obtain ⟨htP, htS, hPbnd, hSbnd, hfP, hfS⟩ := decomp_facts _ _ _ _ _ _ hts
    have hhd48 : HEADER_SIZE = 48 := rfl
    have hU : USIZE = 2 ^ 64 := rfl
    have hvv := (validate_eq_true_iff h).mp hvalT
    have hmagic : h.magic = BLOCK_MAGIC := hvv.1
    have hszne : h.size ≠ 0 := hvv.2.1
    have hvalidP : ∀ c ∈ P, c.hdr.validate = true := by
      intro c hc
      exact hInv.valid_inv c (by rw [hbs]; exact List.mem_append_left _ hc)
    have hvalidS : ∀ c ∈ S, c.hdr.validate = true := by
      intro c hc
      exact hInv.valid_inv c
        (by rw [hbs]; exact List.mem_append_right _ (List.mem_cons_of_mem _ hc))
    have hadj0 : no_adjacent_free (P ++ ⟨ha, h⟩ :: S) := by
      rw [← hbs]
      exact hInv.adj_inv
    obtain ⟨hPc, hSc, hlastP, hheadS0⟩ := no_adj_parts P S _ hadj0
    set h1 := BlockHeader.update_checksum { h with status := .Free, timestamp := s.clock }
      with hh1
    have hh1st : h1.status = .Free := by rw [hh1]; rfl
    have hh1tot : h1.total_size = h.total_size := by rw [hh1]; rfl
    have hh1val : h1.validate = true := by
      rw [hh1]
      exact validate_update_checksum _ hmagic hszne
    have hh1nA : ¬ (⟨ha, h1⟩ : Block).hdr.status = .Allocated := by
      show ¬ h1.status = .Allocated
      rw [hh1st]
      decide
    have hblocks1 : set_hdr_at s.blocks ha h1 = P ++ ⟨ha, h1⟩ :: S := by
      rw [hbs]
      exact set_hdr_at_append P S ha h h1 hP
    have hmidnf : ¬ (⟨ha, h⟩ : Block).hdr.status = .Free := hfree0
    have hfl0 : s.free_list = free_addrs P ++ free_addrs S := by
      rw [hInv.fl_inv, hbs, free_addrs_mid, if_neg hmidnf]
    have hfl1 : insert_into_free_list s.free_list ha = free_addrs P ++ ha :: free_addrs S := by
      rw [hfl0]
      refine insert_into_free_list_spec _ _ _ ?_ ?_
      · intro y hy
        have h2 := hfP y hy
        omega
      · intro y hy
        have h2 := hfS y hy
        have h3 := total_size_ge h
        omega
    have habs : alloc_bytes s.blocks = alloc_bytes P + (h.size + alloc_bytes S) := by
      rw [hbs, alloc_bytes_mid,
          if_pos (show (⟨ha, h⟩ : Block).hdr.status = .Allocated from halloc)]
    have hnas : num_alloc s.blocks = num_alloc P + (1 + num_alloc S) := by
      rw [hbs, num_alloc_mid,
          if_pos (show (⟨ha, h⟩ : Block).hdr.status = .Allocated from halloc)]
    have hnfs : num_free s.blocks = num_free P + (0 + num_free S) := by
      rw [hbs, num_free_mid, if_neg hmidnf]
    have hab_lt : alloc_bytes s.blocks < USIZE := by
      have h2 := tiles_footprint_le s.blocks _ _ hInv.tiles_inv
      have h3 := alloc_bytes_le_footprint s.blocks
      have h4 := hInv.end_lt
      omega
    have hlen_lt : 48 * s.blocks.length + s.heap_start ≤ s.heap_end := by
      have h2 := tiles_length_bound s.blocks _ _ hInv.tiles_inv
      rw [hhd48] at h2
      omega
    set st2 : AllocStats := { s.stats.record_dealloc h.size with
      free_size := wadd (s.stats.record_dealloc h.size).free_size (h.size + HEADER_SIZE),
      free_count := (s.stats.record_dealloc h.size).free_count + 1 } with hst2
    have hst2u : st2.used_size = wsub s.stats.used_size h.size := by rw [hst2]; rfl
    have hst2a : st2.alloc_count = s.stats.alloc_count - 1 := by rw [hst2]; rfl
    have hst2f : st2.free_count = s.stats.free_count + 1 := by rw [hst2]; rfl
    have hst2fs : st2.free_size
        = wadd (wadd s.stats.free_size h.size) (h.size + HEADER_SIZE) := by rw [hst2]; rfl
    rw [hblocks1, hfl1]
    have hused2 : wsub s.stats.used_size h.size = alloc_bytes P + (0 + alloc_bytes S) := by
      have hle : h.size ≤ s.stats.used_size := by
        rw [hInv.used_inv, habs]
        omega
      have hlt : s.stats.used_size < USIZE := by
        rw [hInv.used_inv]
        exact hab_lt
      rw [wsub_small _ _ hle hlt, hInv.used_inv, habs]
      omega
    have hac2 : s.stats.alloc_count - 1 = num_alloc P + (0 + num_alloc S) := by
      rw [hInv.ac_inv, hnas]
      omega
    have hfc2 : s.stats.free_count + 1 = num_free P + (1 + num_free S) := by
      rw [hInv.fc_inv, hnfs]
      omega
    have hfs_lt2 : st2.free_size < USIZE := by
      rw [hst2fs]
      exact wadd_lt _ _
    have hsum0 := hInv.sum_inv
    rw [hbs, alloc_bytes_mid,
        if_pos (show (⟨ha, h⟩ : Block).hdr.status = .Allocated from halloc),
        num_alloc_mid,
        if_pos (show (⟨ha, h⟩ : Block).hdr.status = .Allocated from halloc)] at hsum0
    cases S with
    | nil =>
      have hendeq : ha + h1.total_size = s.heap_end := by
        rw [hh1tot]
        exact htS
      have hlook1 : lookupBlock (P ++ ⟨ha, h1⟩ :: []) ha = some h1 :=
        lookup_append_some _ _ _ _ hP
      have hcn : coalesce_next s.heap_end (P ++ ⟨ha, h1⟩ :: [])
          (free_addrs P ++ ha :: free_addrs ([] : List Block)) st2 ha
          = (P ++ ⟨ha, h1⟩ :: [], free_addrs P ++ ha :: free_addrs ([] : List Block), st2) := by
        unfold coalesce_next
        simp only [hlook1]
        rw [if_neg (by rw [hendeq]; exact Nat.lt_irrefl _)]
      have hco : coalesce s.heap_end (P ++ ⟨ha, h1⟩ :: [])
          (free_addrs P ++ ha :: free_addrs ([] : List Block)) st2 ha
          = coalesce_prev (P ++ ⟨ha, h1⟩ :: [])
              (free_addrs P ++ ha :: free_addrs ([] : List Block)) st2 ha := by
        unfold coalesce
        rw [hcn]
      rw [hco]
      refine coalesce_prev_final s P [] ha h1 st2 (s.clock + 1)
        ?_ ?_ hh1st hPc List.chain'_nil ?_ hInv.end_lt ?_ ?_ ?_ hfs_lt2 ?_
      · exact tiles_reassemble P [] s.heap_start ha s.heap_end ⟨ha, h1⟩ htP rfl hendeq
      · intro c hc
        rcases List.mem_append.mp hc with hc1 | hc1
        · exact hvalidP c hc1
        · rcases List.mem_cons.mp hc1 with rfl | hc2
          · exact hh1val
          · cases hc2
      · intro y hy
        simp at hy
      · show st2.free_count = num_free (P ++ ⟨ha, h1⟩ :: [])
        rw [hst2f, num_free_mid,
            if_pos (show (⟨ha, h1⟩ : Block).hdr.status = .Free from hh1st)]
        exact hfc2
      · show st2.used_size = alloc_bytes (P ++ ⟨ha, h1⟩ :: [])
        rw [hst2u, hused2, alloc_bytes_mid, if_neg hh1nA]
      · show st2.alloc_count = num_alloc (P ++ ⟨ha, h1⟩ :: [])
        rw [hst2a, hac2, num_alloc_mid, if_neg hh1nA]
      · show ((st2.free_size + 2 * alloc_bytes (P ++ ⟨ha, h1⟩ :: [])
            + HEADER_SIZE * num_alloc (P ++ ⟨ha, h1⟩ :: []) : Nat) : ZMod USIZE)
          = ((s.heap_end - s.heap_start : Nat) : ZMod USIZE)
        rw [hst2fs, alloc_bytes_mid, if_neg hh1nA, num_alloc_mid, if_neg hh1nA]
        push_cast [wadd_cast] at hsum0 ⊢
        linear_combination hsum0
    | cons N S2 =>
      have hNaddr : N.addr = ha + h.total_size := htS.1
      have htSS : tiles (ha + h.total_size + N.hdr.total_size) s.heap_end S2 := htS.2
      have hNtot := total_size_ge N.hdr
      have hNlt : ha + h1.total_size < s.heap_end := by
        have h2 := tiles_le _ _ _ htSS
        rw [hh1tot]
        omega
      have hlook1 : lookupBlock (P ++ ⟨ha, h1⟩ :: N :: S2) ha = some h1 :=
        lookup_append_some _ _ _ _ hP
      have hPMne : ∀ c ∈ P ++ [(⟨ha, h1⟩ : Block)], c.addr ≠ ha + h1.total_size := by
        intro c hc
        rcases List.mem_append.mp hc with hc1 | hc1
        · have h2 := hPbnd c hc1
          have h3 := total_size_ge c.hdr
          rw [hh1tot]
          omega
        · have hceq : c = ⟨ha, h1⟩ := by simpa using hc1
          rw [hceq]
          show ha ≠ ha + h1.total_size
          have h4 := total_size_ge h
          rw [hh1tot]
          omega
      have hNeta : N = (⟨ha + h1.total_size, N.hdr⟩ : Block) := by
        rw [hh1tot, ← hNaddr]
      have hassoc : P ++ ⟨ha, h1⟩ :: N :: S2
          = (P ++ [(⟨ha, h1⟩ : Block)]) ++ (⟨ha + h1.total_size, N.hdr⟩ : Block) :: S2 := by
        rw [← hNeta]
        simp
      have hlookN : lookupBlock (P ++ ⟨ha, h1⟩ :: N :: S2) (ha + h1.total_size)
          = some N.hdr := by
        rw [hassoc]
        exact lookup_append_some _ _ _ _ hPMne
      by_cases hNfree : N.hdr.status = .Free
      · -- the next block is Free: it is absorbed first
        set h2 := BlockHeader.update_checksum { h1 with size := h1.size + N.hdr.total_size }
          with hh2
        have hh2st : h2.status = .Free := by
          rw [hh2]
          exact hh1st
        have hh2tot : h2.total_size = h1.total_size + N.hdr.total_size := by
          rw [hh2]
          show (h1.size + N.hdr.total_size) + HEADER_SIZE = h1.total_size + N.hdr.total_size
          have h3 : h1.total_size = h1.size + HEADER_SIZE := rfl
          omega
        have hh2val : h2.validate = true := by
          rw [hh2]
          refine validate_update_checksum _ ?_ ?_
          · show h1.magic = BLOCK_MAGIC
            rw [hh1]
            exact hmagic
          · show h1.size + N.hdr.total_size ≠ 0
            omega
        have hh2nA : ¬ (⟨ha, h2⟩ : Block).hdr.status = .Allocated := by
          show ¬ h2.status = .Allocated
          rw [hh2st]
          decide
        have hremove : remove_at_addr (P ++ ⟨ha, h1⟩ :: N :: S2) (ha + h1.total_size)
            = P ++ ⟨ha, h1⟩ :: S2 := by
          rw [hassoc, remove_at_addr_append _ _ _ _ hPMne]
          simp
        have hmerge : merge_with_next (P ++ ⟨ha, h1⟩ :: N :: S2) ha = P ++ ⟨ha, h2⟩ :: S2 := by
          unfold merge_with_next
          simp only [hlook1, hlookN]
          rw [hremove, ← hh2]
          exact set_hdr_at_append P S2 ha h1 h2 hP
        have hfNS : free_addrs (N :: S2) = (ha + h.total_size) :: free_addrs S2 := by
          show (if N.hdr.status = .Free then N.addr :: free_addrs S2 else free_addrs S2) = _
          rw [if_pos hNfree, hNaddr]
        have hnext_notP : (ha + h.total_size) ∉ free_addrs P := by
          intro hy
          have h3 := hfP _ hy
          omega
        have herase : (free_addrs P ++ ha :: free_addrs (N :: S2)).erase (ha + h1.total_size)
            = free_addrs P ++ ha :: free_addrs S2 := by
          rw [hh1tot, hfNS, List.erase_append_right _ hnext_notP, List.erase_cons,
              if_neg (by
                simpa using (show ha ≠ ha + h.total_size from by
                  have h4 := total_size_ge h
                  omega)),
              List.erase_cons_head]
        have hcn : coalesce_next s.heap_end (P ++ ⟨ha, h1⟩ :: N :: S2)
            (free_addrs P ++ ha :: free_addrs (N :: S2)) st2 ha
            = (P ++ ⟨ha, h2⟩ :: S2, free_addrs P ++ ha :: free_addrs S2,
               { st2.record_merge with free_count := wsub st2.free_count 1 }) := by
          unfold coalesce_next
          simp only [hlook1]
          rw [if_pos hNlt]
          simp only [hlookN]
          rw [if_pos hNfree, hmerge, herase]
        have hco : coalesce s.heap_end (P ++ ⟨ha, h1⟩ :: N :: S2)
            (free_addrs P ++ ha :: free_addrs (N :: S2)) st2 ha
            = coalesce_prev (P ++ ⟨ha, h2⟩ :: S2) (free_addrs P ++ ha :: free_addrs S2)
                { st2.record_merge with free_count := wsub st2.free_count 1 } ha := by
          unfold coalesce
          rw [hcn]
        rw [hco]
        set st3 := { st2.record_merge with free_count := wsub st2.free_count 1 } with hst3
        have hst3u : st3.used_size = st2.used_size := by rw [hst3]; rfl
        have hst3a : st3.alloc_count = st2.alloc_count := by rw [hst3]; rfl
        have hst3fs : st3.free_size = st2.free_size := by rw [hst3]; rfl
        have hst3f : st3.free_count = wsub st2.free_count 1 := by rw [hst3]
        have hNnA : ¬ N.hdr.status = .Allocated := by
          rw [hNfree]
          decide
        have habN : alloc_bytes (N :: S2) = alloc_bytes S2 := by
          show (if N.hdr.status = .Allocated then N.hdr.size else 0) + alloc_bytes S2 = _
          rw [if_neg hNnA]
          omega
        have hnaN : num_alloc (N :: S2) = num_alloc S2 := by
          show (if N.hdr.status = .Allocated then 1 else 0) + num_alloc S2 = _
          rw [if_neg hNnA]
          omega
        have hnfN : num_free (N :: S2) = 1 + num_free S2 := by
          show (if N.hdr.status = .Free then 1 else 0) + num_free S2 = _
          rw [if_pos hNfree]
        refine coalesce_prev_final s P S2 ha h2 st3 (s.clock + 1)
          ?_ ?_ hh2st hPc ?_ ?_ hInv.end_lt ?_ ?_ ?_ ?_ ?_
        · refine tiles_reassemble P S2 s.heap_start ha s.heap_end ⟨ha, h2⟩ htP rfl ?_
          have harith : ha + (⟨ha, h2⟩ : Block).hdr.total_size
              = ha + h.total_size + N.hdr.total_size := by
            show ha + h2.total_size = _
            rw [hh2tot, hh1tot]
            omega
          rw [harith]
          exact htSS
        · intro c hc
          rcases List.mem_append.mp hc with hc1 | hc1
          · exact hvalidP c hc1
          · rcases List.mem_cons.mp hc1 with rfl | hc2
            · exact hh2val
            · exact hvalidS _ (List.mem_cons_of_mem _ hc2)
        · exact (List.chain'_cons'.mp hSc).2
        · intro y hy hyf
          have h5 := (List.chain'_cons'.mp hSc).1 y (Option.mem_def.mpr hy)
          exact h5 ⟨hNfree, hyf⟩
        · show st3.free_count = num_free (P ++ ⟨ha, h2⟩ :: S2)
          rw [hst3f, num_free_mid,
              if_pos (show (⟨ha, h2⟩ : Block).hdr.status = .Free from hh2st)]
          have hfcval : st2.free_count = num_free P + (1 + (1 + num_free S2)) := by
            rw [hst2f, hfc2, hnfN]
          have hfcUB : st2.free_count < USIZE := by
            rw [hst2f]
            have h6 := hInv.fc_inv
            have h7 := num_free_le_length s.blocks
            have h8 := hInv.end_lt
            omega
          rw [wsub_small _ _ (by rw [hfcval]; omega) hfcUB, hfcval]
          omega
        · show st3.used_size = alloc_bytes (P ++ ⟨ha, h2⟩ :: S2)
          rw [hst3u, hst2u, hused2, alloc_bytes_mid, if_neg hh2nA, habN]
        · show st3.alloc_count = num_alloc (P ++ ⟨ha, h2⟩ :: S2)
          rw [hst3a, hst2a, hac2, num_alloc_mid, if_neg hh2nA, hnaN]
        · show st3.free_size < USIZE
          rw [hst3fs]
          exact hfs_lt2
        · show ((st3.free_size + 2 * alloc_bytes (P ++ ⟨ha, h2⟩ :: S2)
              + HEADER_SIZE * num_alloc (P ++ ⟨ha, h2⟩ :: S2) : Nat) : ZMod USIZE)
            = ((s.heap_end - s.heap_start : Nat) : ZMod USIZE)
          rw [hst3fs, hst2fs, alloc_bytes_mid, if_neg hh2nA, num_alloc_mid, if_neg hh2nA]
          rw [habN, hnaN] at hsum0
          push_cast [wadd_cast] at hsum0 ⊢
          linear_combination hsum0
      · -- the next block is Allocated: coalesce_next is the identity
        have hcn : coalesce_next s.heap_end (P ++ ⟨ha, h1⟩ :: N :: S2)
            (free_addrs P ++ ha :: free_addrs (N :: S2)) st2 ha
            = (P ++ ⟨ha, h1⟩ :: N :: S2, free_addrs P ++ ha :: free_addrs (N :: S2), st2) := by
          unfold coalesce_next
          simp only [hlook1]
          rw [if_pos hNlt]
          simp only [hlookN]
          rw [if_neg hNfree]
        have hco : coalesce s.heap_end (P ++ ⟨ha, h1⟩ :: N :: S2)
            (free_addrs P ++ ha :: free_addrs (N :: S2)) st2 ha
            = coalesce_prev (P ++ ⟨ha, h1⟩ :: N :: S2)
                (free_addrs P ++ ha :: free_addrs (N :: S2)) st2 ha := by
          unfold coalesce
          rw [hcn]
        rw [hco]
        refine coalesce_prev_final s P (N :: S2) ha h1 st2 (s.clock + 1)
          ?_ ?_ hh1st hPc hSc ?_ hInv.end_lt ?_ ?_ ?_ hfs_lt2 ?_
        · refine tiles_reassemble P (N :: S2) s.heap_start ha s.heap_end ⟨ha, h1⟩ htP rfl ?_
          show tiles (ha + h1.total_size) s.heap_end (N :: S2)
          rw [hh1tot]
          exact htS
        · intro c hc
          rcases List.mem_append.mp hc with hc1 | hc1
          · exact hvalidP c hc1
          · rcases List.mem_cons.mp hc1 with rfl | hc2
            · exact hh1val
            · exact hvalidS _ hc2
        · intro y hy hyf
          have hyN : y = N := by
            have h6 := hy
            simp only [List.head?_cons, Option.some.injEq] at h6
            exact h6.symm
          rw [hyN] at hyf
          exact hNfree hyf
        · show st2.free_count = num_free (P ++ ⟨ha, h1⟩ :: N :: S2)
          rw [hst2f, num_free_mid,
              if_pos (show (⟨ha, h1⟩ : Block).hdr.status = .Free from hh1st)]
          exact hfc2
        · show st2.used_size = alloc_bytes (P ++ ⟨ha, h1⟩ :: N :: S2)
          rw [hst2u, hused2, alloc_bytes_mid, if_neg hh1nA]
        · show st2.alloc_count = num_alloc (P ++ ⟨ha, h1⟩ :: N :: S2)
          rw [hst2a, hac2, num_alloc_mid, if_neg hh1nA]
        · show ((st2.free_size + 2 * alloc_bytes (P ++ ⟨ha, h1⟩ :: N :: S2)
              + HEADER_SIZE * num_alloc (P ++ ⟨ha, h1⟩ :: N :: S2) : Nat) : ZMod USIZE)
            = ((s.heap_end - s.heap_start : Nat) : ZMod USIZE)
          rw [hst2fs, alloc_bytes_mid, if_neg hh1nA, num_alloc_mid, if_neg hh1nA]
          push_cast [wadd_cast] at hsum0 ⊢
          linear_combination hsum0

/-- Every reachable allocator state satisfies the structural invariant. -/
theorem inv_of_reachable (s : EarlyAllocator) (h : Reachable s) : Inv s := by
  induction h with
  | init start size clock s hof hnew => exact new_Inv start size clock s hof hnew
  | alloc_aligned s size align h ih => exact alloc_aligned_preserves s size align ih
  | dealloc s ptr h ih => exact dealloc_preserves s ptr ih
  | freeze s h ih => exact freeze_preserves s ih
  | set_purpose s ptr p h ih => exact set_purpose_preserves s ptr p ih

/-- Claim C3 (corrected): the spec claims used_size + free_size ==
heap_size - per-block overhead after every operation sequence.  What the
code actually maintains, across every reachable state (init followed by
any sequence of alloc_aligned / dealloc / freeze / set_purpose), is
used_size + free_size ≡ heap_size - allocated footprint (payload plus
header bytes of the currently Allocated blocks) modulo 2^64: free_size
is seeded with the whole heap size (headers included) and each
allocation debits it twice, so the Free blocks' header bytes are never
subtracted and the Allocated blocks' payloads are subtracted twice. -/
theorem C3_used_plus_free_mod (s : EarlyAllocator) (h : Reachable s) :
    (s.stats.used_size + s.stats.free_size) % USIZE
      = ((s.heap_end - s.heap_start) - allocated_footprint s.blocks) % USIZE := by
  have hInv := inv_of_reachable s h
  have hfp : allocated_footprint s.blocks ≤ s.heap_end - s.heap_start :=
    tiles_footprint_le s.blocks _ _ hInv.tiles_inv
  have hz := hInv.sum_inv
  have hcast : ((s.stats.used_size + s.stats.free_size : Nat) : ZMod USIZE)
      = (((s.heap_end - s.heap_start) - allocated_footprint s.blocks : Nat) : ZMod USIZE) := by
    rw [hInv.used_inv, Nat.cast_sub hfp, allocated_footprint_eq]
    push_cast at hz ⊢
    linear_combination hz
  exact (ZMod.natCast_eq_natCast_iff _ _ _).mp hcast

/-- Claim C3 witness: the relation evaluated on the freshly initialized
256-byte heap at address 16 (a reachable state). -/
theorem C3_witness_init_256 :
    ((mkInit 16 256).stats.used_size + (mkInit 16 256).stats.free_size) % USIZE
      = (((mkInit 16 256).heap_end - (mkInit 16 256).heap_start)
          - allocated_footprint (mkInit 16 256).blocks) % USIZE :=
  C3_used_plus_free_mod (mkInit 16 256)
    (Reachable.init 16 256 0 (mkInit 16 256) (by decide) (by rfl))

/-- Claim C6: every operation preserves the invariant that the free list
is strictly ascending by block address, and in every reachable state (in
particular after every successful dealloc, whose coalesce pass merges
the freed block with any physically adjacent free neighbour) no two
address-adjacent Free blocks remain. -/
theorem C6_free_list_sorted_no_adjacent (s : EarlyAllocator) (h : Reachable s) :
    List.Chain' (fun a b => a < b) s.free_list ∧ no_adjacent_free s.blocks := by
  have hInv := inv_of_reachable s h
  refine ⟨?_, hInv.adj_inv⟩
  rw [hInv.fl_inv]
  exact (free_addrs_pairwise s.blocks _ _ hInv.tiles_inv).chain'

/-- Claim C6 witness: the sortedness and no-adjacent-free properties
evaluated on the freshly initialized 512-byte heap at address 16 (a
reachable state). -/
theorem C6_witness_init_512 :
    List.Chain' (fun a b => a < b) (mkInit 16 512).free_list ∧
    no_adjacent_free (mkInit 16 512).blocks :=
  C6_free_list_sorted_no_adjacent (mkInit 16 512)
    (Reachable.init 16 512 0 (mkInit 16 512) (by decide) (by rfl))

end NtRustos
